import Mathlib

/-! # A shallow embedding of the `mycat` family (mycat2.c .. mycat6.c)

The programs copy one file to standard output through a buffer.  All system
calls are modelled as oracles of the environment; loops that may run for ever
carry a fuel argument and report `none` when the fuel runs out.

Machine integers: a `size_t` is a natural number taken modulo `2 ^ 64`, a
`long` or `ssize_t` is an integer in `[-2 ^ 63, 2 ^ 63)`.
-/

namespace Mycat

/-! ## Machine integers -/

/-- Number of values of a `size_t` (64-bit target). -/
def SIZE_MOD : Nat := 2 ^ 64

/-- Largest `ssize_t`. -/
def SSIZE_MAX : Nat := 2 ^ 63 - 1

/-- The width of `void *` in bytes, `sizeof(void *)`. -/
def PTR_SIZE : Nat := 8

/-- The value of `errno` for an interrupted system call. -/
def EINTR : Nat := 4

/-- A value of the C type `ssize_t`. -/
structure ssize_t where
  val : Int
  lo : -(2 : Int) ^ 63 ≤ val
  hi : val < (2 : Int) ^ 63

/-- Conversion of an integer to `size_t` (reduction modulo `2 ^ 64`). -/
def to_size (z : Int) : Nat := (z % (2 : Int) ^ 64).toNat

/-- Conversion of a `size_t` to `ssize_t` (two's complement), as in `return count;`. -/
def to_ssize (n : Nat) : Int :=
  if n % 2 ^ 64 < 2 ^ 63 then ((n % 2 ^ 64 : Nat) : Int) else ((n % 2 ^ 64 : Nat) : Int) - (2 : Int) ^ 64

/-- Bitwise complement of a `long`, the C operator `~`. -/
def lnot (z : Int) : Int := -z - 1

/-! ## The environment -/

/-- A byte of a file or of the buffer. -/
abbrev Byte := UInt8

/-- What one call of `write(2)` reports: the return value and `errno`. -/
structure WriteRet where
  ret : ssize_t
  errno : Nat

/-- The outcome of the `i`-th call of `write`, asked to transfer `count` bytes. -/
abbrev WriteOracle := Nat → Nat → WriteRet

/-- The return value of the `i`-th call of `read` at file offset `off`, asked for `count` bytes. -/
abbrev ReadOracle := Nat → Nat → Nat → ssize_t

/-- Names of the library calls the programs report with `perror`. -/
inductive Sys
  | sysconf | malloc | align_alloc | stat | open_file | posix_fadvise | read | write_all | close
  deriving DecidableEq

/-- Observable events of a run, in program order. -/
inductive Event
  | usage
  | perror (s : Sys)
  | sysconf (ret : Int)
  | stat (ret : Int)
  | malloc (size : Nat) (ret : Nat)
  | free (p : Nat)
  | align_alloc (size : Nat) (ret : Nat)
  | align_free (ptr : Nat)
  | open_file (ret : Int)
  | posix_fadvise (fd : Int) (ret : Int)
  | read (fd : Int) (count : Nat) (ret : Int)
  | write (ptr : Int) (count : Nat) (ret : Int) (errno : Nat) (data : List Byte)
  | close (fd : Int) (ret : Int)
  deriving DecidableEq

/-- The bytes a `write` call moved to the output: `ret` bytes of `buf` from offset `ptr`
when the call succeeded, nothing when it returned a value `<= 0`. -/
def sent (buf : List Byte) (ptr : Int) (ret : Int) : List Byte :=
  (buf.drop ptr.toNat).take ret.toNat

/-! ## `write_all` -/

/-- The loop of `write_all` in mycat3.c (identical in mycat4.c, mycat5.c, mycat6.c).
`i` is the number of `write` calls made so far by the process, `ptr` the offset of the
cursor inside `buf`.  Result: the returned value (`none` when the fuel ran out with bytes
still to write) and the `write` calls made. -/
def write_all_loop (w : WriteOracle) (buf : List Byte) (count : Nat) :
    Nat → Nat → Nat → Int → Option Int × List Event
  | 0, _, bytes_left, _ =>
    if bytes_left > 0 then (none, []) else (some (to_ssize count), [])
  | fuel + 1, i, bytes_left, ptr =>
    if bytes_left > 0 then
      let r := w i bytes_left
      let bytes_written := r.ret.val
      let ev := Event.write ptr bytes_left bytes_written r.errno (sent buf ptr bytes_written)
      if bytes_written = -1 then
        if r.errno = EINTR then
          let rest := write_all_loop w buf count fuel (i + 1) bytes_left ptr
          (rest.1, ev :: rest.2)
        else (some (-1), [ev])
      else
        let rest := write_all_loop w buf count fuel (i + 1)
          (to_size ((bytes_left : Int) - bytes_written)) (ptr + bytes_written)
        (rest.1, ev :: rest.2)
    else (some (to_ssize count), [])

/-- The function `write_all(fd, buf, count)` of mycat3.c .. mycat6.c. -/
def write_all (w : WriteOracle) (buf : List Byte) (i count fuel : Nat) : Option Int × List Event :=
  write_all_loop w buf count fuel i count 0

/-- The loop of `write_all` in mycat2.c: every failure of `write` ends the function. -/
def write_all2_loop (w : WriteOracle) (buf : List Byte) (count : Nat) :
    Nat → Nat → Nat → Int → Option Int × List Event
  | 0, _, bytes_left, _ =>
    if bytes_left > 0 then (none, []) else (some (to_ssize count), [])
  | fuel + 1, i, bytes_left, ptr =>
    if bytes_left > 0 then
      let r := w i bytes_left
      let bytes_written := r.ret.val
      let ev := Event.write ptr bytes_left bytes_written r.errno (sent buf ptr bytes_written)
      if bytes_written = -1 then (some (-1), [ev])
      else
        let rest := write_all2_loop w buf count fuel (i + 1)
          (to_size ((bytes_left : Int) - bytes_written)) (ptr + bytes_written)
        (rest.1, ev :: rest.2)
    else (some (to_ssize count), [])

/-- The function `write_all(fd, buf, count)` of mycat2.c. -/
def write_all2 (w : WriteOracle) (buf : List Byte) (i count fuel : Nat) : Option Int × List Event :=
  write_all2_loop w buf count fuel i count 0

/-- The bytes that reached the output, concatenated in call order. -/
def output : List Event → List Byte
  | [] => []
  | Event.write _ _ _ _ data :: es => data ++ output es
  | _ :: es => output es

/-! ## Buffer allocation -/

/-- Pointer-sized words of memory, by address: only the slot in front of the aligned
buffer, where `align_alloc` saves the base pointer, is ever written. -/
abbrev Mem := Nat → Nat

/-- The size `align_alloc` asks of `malloc`: `size + page_size - 1 + sizeof(void *)`
in `size_t` arithmetic. -/
def alloc_size (size : Nat) (page_size : Int) : Nat :=
  to_size ((size : Int) + page_size - 1 + (PTR_SIZE : Int))

/-- The aligned address computed by `align_alloc`:
`((uintptr_t)p1 + sizeof(void *) + page_size - 1) & ~(page_size - 1)`. -/
def align_up (p1 : Nat) (page_size : Int) : Nat :=
  Nat.land (to_size ((p1 : Int) + (PTR_SIZE : Int) + page_size - 1)) (to_size (lnot (page_size - 1)))

/-- The part of `align_alloc` after the page size is known (the same text in
mycat3.c .. mycat6.c): returns the buffer (`0` is `NULL`), the memory and the events.
The last event records what `align_alloc` returns. -/
def align_alloc_with (malloc : Nat → Nat) (mem : Mem) (size : Nat) (page_size : Int) :
    Nat × Mem × List Event :=
  let p1 := malloc (alloc_size size page_size)
  if p1 = 0 then
    (0, mem, [Event.malloc (alloc_size size page_size) p1, Event.align_alloc size 0])
  else
    let p2 := align_up p1 page_size
    (p2, Function.update mem (to_size ((p2 : Int) - (PTR_SIZE : Int))) p1,
      [Event.malloc (alloc_size size page_size) p1, Event.align_alloc size p2])

/-- The function `align_alloc` of mycat3.c and mycat4.c: a failing page-size query makes it
return `NULL`.  `sc` is the value `sysconf(_SC_PAGESIZE)` returns to this call. -/
def align_alloc3 (sc : Int) (malloc : Nat → Nat) (mem : Mem) (size : Nat) :
    Nat × Mem × List Event :=
  if sc = -1 then
    (0, mem, [Event.sysconf sc, Event.perror Sys.sysconf, Event.align_alloc size 0])
  else
    let r := align_alloc_with malloc mem size sc
    (r.1, r.2.1, Event.sysconf sc :: r.2.2)

/-- The function `align_alloc` of mycat5.c and mycat6.c: a failing page-size query is
replaced by 4096. -/
def align_alloc5 (sc : Int) (malloc : Nat → Nat) (mem : Mem) (size : Nat) :
    Nat × Mem × List Event :=
  let page_size := if sc = -1 then 4096 else sc
  let r := align_alloc_with malloc mem size page_size
  (r.1, r.2.1, Event.sysconf sc :: r.2.2)

/-- The function `align_free`: frees the base pointer saved in front of `ptr`.
The first event records the call itself. -/
def align_free (mem : Mem) (ptr : Nat) : List Event :=
  if ptr = 0 then [Event.align_free ptr]
  else [Event.align_free ptr, Event.free (mem (to_size ((ptr : Int) - (PTR_SIZE : Int))))]

/-! ## Buffer size policy of mycat4.c -/

/-- The function `gcd` of mycat4.c. -/
def gcd (a b : Nat) : Nat :=
  if b = 0 then a else gcd b (a % b)
termination_by b
decreasing_by exact Nat.mod_lt _ (Nat.pos_of_ne_zero (by assumption))

/-- The function `lcm` of mycat4.c; the product is a `size_t`. -/
def lcm (a b : Nat) : Nat :=
  if a = 0 ∨ b = 0 then 0 else (a / gcd a b) * b % SIZE_MOD

/-- The sanity check on `st_blksize` in `main` of mycat4.c. -/
def sanitize (file_blk_size : Nat) : Nat :=
  if file_blk_size < 512 ∨ file_blk_size > 1024 * 1024 then 4096 else file_blk_size

/-- The buffer size of mycat4.c from the page size and the sanitized block size:
the least common multiple, replaced by 128 KiB when larger. -/
def buffer_size4 (page_size file_blk_size : Nat) : Nat :=
  let buffer_size := lcm page_size file_blk_size
  if buffer_size > 128 * 1024 then 128 * 1024 else buffer_size

/-- The constant `OPTIMAL_BUFFER_SIZE` of mycat5.c and mycat6.c. -/
def OPTIMAL_BUFFER_SIZE : Nat := 128 * 1024

/-! ## The copy loop and `main` -/

/-- How the read/write loop of `main` is left. -/
inductive LoopEnd
  | write_failed
  | ended (bytes_read : Int)
  deriving DecidableEq

/-- The loop `while ((bytes_read = read(fd, buffer, buffer_size)) > 0) { write_all ... }`
of `main` in mycat3.c .. mycat6.c (the same text in the four programs; for mycat2.c, whose
`write_all` differs, see `copy_loop2`).  `F` is the content of the input file,
`ri`/`wi` count the `read`/`write` calls made so far, `off` is the file offset and `buffer`
the content of the buffer.  A `read` that returns `n > 0` stores the `n` bytes of `F` at
`off` over the start of the buffer and moves the offset by `n`.  The fuel bounds the turns
of the loop and, in each turn, the `write` calls of `write_all`.  `none`: the fuel ran out. -/
def copy_loop (rd : ReadOracle) (w : WriteOracle) (F : List Byte) (fd : Int) (buffer_size : Nat) :
    Nat → Nat → Nat → Nat → List Byte → Option LoopEnd × List Event
  | 0, _, _, _, _ => (none, [])
  | fuel + 1, ri, wi, off, buffer =>
    let bytes_read := (rd ri off buffer_size).val
    let got := (F.drop off).take bytes_read.toNat
    let buffer1 := got ++ buffer.drop got.length
    let ev := Event.read fd buffer_size bytes_read
    if bytes_read > 0 then
      let r := write_all w buffer1 wi bytes_read.toNat fuel
      match r.1 with
      | none => (none, ev :: r.2)
      | some v =>
        if v = -1 then (some LoopEnd.write_failed, ev :: r.2)
        else
          let rest := copy_loop rd w F fd buffer_size fuel (ri + 1) (wi + r.2.length)
            (off + bytes_read.toNat) buffer1
          (rest.1, ev :: (r.2 ++ rest.2))
    else (some (LoopEnd.ended bytes_read), [ev])

/-- The same loop in `main` of mycat2.c: the text is the same, but the `write_all` it calls
is the one of mycat2.c, which gives up on every failed `write`. -/
def copy_loop2 (rd : ReadOracle) (w : WriteOracle) (F : List Byte) (fd : Int) (buffer_size : Nat) :
    Nat → Nat → Nat → Nat → List Byte → Option LoopEnd × List Event
  | 0, _, _, _, _ => (none, [])
  | fuel + 1, ri, wi, off, buffer =>
    let bytes_read := (rd ri off buffer_size).val
    let got := (F.drop off).take bytes_read.toNat
    let buffer1 := got ++ buffer.drop got.length
    let ev := Event.read fd buffer_size bytes_read
    if bytes_read > 0 then
      let r := write_all2 w buffer1 wi bytes_read.toNat fuel
      match r.1 with
      | none => (none, ev :: r.2)
      | some v =>
        if v = -1 then (some LoopEnd.write_failed, ev :: r.2)
        else
          let rest := copy_loop2 rd w F fd buffer_size fuel (ri + 1) (wi + r.2.length)
            (off + bytes_read.toNat) buffer1
          (rest.1, ev :: (r.2 ++ rest.2))
    else (some (LoopEnd.ended bytes_read), [ev])

/-- Everything outside the program that a run depends on: the number of arguments, what
each call of `sysconf(_SC_PAGESIZE)` returns, the address `malloc` returns for a size (`0` is
`NULL`), what `stat` returns and the `st_blksize` it reports, what `open`, `posix_fadvise`
and `close` return, the content of the file, the initial content of the buffer, and the
outcomes of `read` and `write`. -/
structure Env where
  argc : Int
  sysconf : Nat → Int
  malloc : Nat → Nat
  stat_ret : Int
  st_blksize : Int
  open_ret : Int
  fadvise_ret : Int
  close_ret : Int
  file : List Byte
  garbage : List Byte
  read : ReadOracle
  write : WriteOracle

/-- The exit status `EXIT_SUCCESS`. -/
def EXIT_SUCCESS : Int := 0

/-- The exit status `EXIT_FAILURE`. -/
def EXIT_FAILURE : Int := 1

/-- The part of `main` from `open` to the end in mycat3.c .. mycat6.c: `release` is what
`align_free(buffer)` does, `advise` tells whether `posix_fadvise` is called (mycat6.c only).
Result: the exit status (`none` when the fuel ran out) and the events. -/
def session (env : Env) (advise : Bool) (buffer_size : Nat) (release : List Event) (fuel : Nat) :
    Option Int × List Event :=
  let fd := env.open_ret
  if fd = -1 then
    (some EXIT_FAILURE, [Event.open_file fd, Event.perror Sys.open_file] ++ release)
  else
    let adv :=
      if advise then
        Event.posix_fadvise fd env.fadvise_ret ::
          (if env.fadvise_ret ≠ 0 then [Event.perror Sys.posix_fadvise] else [])
      else []
    let l := copy_loop env.read env.write env.file fd buffer_size fuel 0 0 0 env.garbage
    let pre := Event.open_file fd :: (adv ++ l.2)
    match l.1 with
    | none => (none, pre)
    | some LoopEnd.write_failed =>
      (some EXIT_FAILURE,
        pre ++ ([Event.perror Sys.write_all] ++ release ++ [Event.close fd env.close_ret]))
    | some (LoopEnd.ended bytes_read) =>
      if bytes_read = -1 then
        (some EXIT_FAILURE,
          pre ++ ([Event.perror Sys.read] ++ release ++ [Event.close fd env.close_ret]))
      else if env.close_ret = -1 then
        (some EXIT_FAILURE,
          pre ++ (release ++ [Event.close fd env.close_ret, Event.perror Sys.close]))
      else (some EXIT_SUCCESS, pre ++ (release ++ [Event.close fd env.close_ret]))

/-- The part of `main` of mycat2.c from `open` to the end: the buffer is released with
`free(buffer)` and the loop calls the `write_all` of mycat2.c. -/
def session2 (env : Env) (buffer_size : Nat) (buffer : Nat) (fuel : Nat) :
    Option Int × List Event :=
  let fd := env.open_ret
  if fd = -1 then
    (some EXIT_FAILURE, [Event.open_file fd, Event.perror Sys.open_file, Event.free buffer])
  else
    let l := copy_loop2 env.read env.write env.file fd buffer_size fuel 0 0 0 env.garbage
    let pre := Event.open_file fd :: l.2
    match l.1 with
    | none => (none, pre)
    | some LoopEnd.write_failed =>
      (some EXIT_FAILURE,
        pre ++ [Event.perror Sys.write_all, Event.free buffer, Event.close fd env.close_ret])
    | some (LoopEnd.ended bytes_read) =>
      if bytes_read = -1 then
        (some EXIT_FAILURE,
          pre ++ [Event.perror Sys.read, Event.free buffer, Event.close fd env.close_ret])
      else if env.close_ret = -1 then
        (some EXIT_FAILURE,
          pre ++ [Event.free buffer, Event.close fd env.close_ret, Event.perror Sys.close])
      else (some EXIT_SUCCESS, pre ++ [Event.free buffer, Event.close fd env.close_ret])

/-- Prefixes the events of a later part of a run. -/
def after (evs : List Event) (r : Option Int × List Event) : Option Int × List Event :=
  (r.1, evs ++ r.2)

/-- The query `sysconf(_SC_PAGESIZE)` in `main` with its fallback to 4096. -/
def page_size_or_default (sc : Int) : Int × List Event :=
  if sc = -1 then (4096, [Event.sysconf sc, Event.perror Sys.sysconf]) else (sc, [Event.sysconf sc])

/-- The function `main` of mycat2.c. -/
def main2 (env : Env) (fuel : Nat) : Option Int × List Event :=
  if env.argc ≠ 2 then (some EXIT_FAILURE, [Event.usage])
  else
    let ps := page_size_or_default (env.sysconf 0)
    let buffer := env.malloc (to_size ps.1)
    if buffer = 0 then
      (some EXIT_FAILURE, ps.2 ++ [Event.malloc (to_size ps.1) buffer, Event.perror Sys.malloc])
    else
      after (ps.2 ++ [Event.malloc (to_size ps.1) buffer])
        (session2 env (to_size ps.1) buffer fuel)

/-- The function `main` of mycat3.c. -/
def main3 (env : Env) (fuel : Nat) : Option Int × List Event :=
  if env.argc ≠ 2 then (some EXIT_FAILURE, [Event.usage])
  else
    let ps := page_size_or_default (env.sysconf 0)
    let a := align_alloc3 (env.sysconf 1) env.malloc (fun _ => 0) (to_size ps.1)
    if a.1 = 0 then (some EXIT_FAILURE, ps.2 ++ a.2.2 ++ [Event.perror Sys.align_alloc])
    else
      after (ps.2 ++ a.2.2) (session env false (to_size ps.1) (align_free a.2.1 a.1) fuel)

/-- The function `main` of mycat4.c. -/
def main4 (env : Env) (fuel : Nat) : Option Int × List Event :=
  if env.argc ≠ 2 then (some EXIT_FAILURE, [Event.usage])
  else if env.stat_ret = -1 then
    (some EXIT_FAILURE, [Event.stat env.stat_ret, Event.perror Sys.stat])
  else
    let file_blk_size := sanitize (to_size env.st_blksize)
    let ps := page_size_or_default (env.sysconf 0)
    let buffer_size := buffer_size4 (to_size ps.1) file_blk_size
    let a := align_alloc3 (env.sysconf 1) env.malloc (fun _ => 0) buffer_size
    if a.1 = 0 then
      (some EXIT_FAILURE,
        Event.stat env.stat_ret :: (ps.2 ++ a.2.2 ++ [Event.perror Sys.align_alloc]))
    else
      after (Event.stat env.stat_ret :: (ps.2 ++ a.2.2))
        (session env false buffer_size (align_free a.2.1 a.1) fuel)

/-- The function `main` of mycat5.c. -/
def main5 (env : Env) (fuel : Nat) : Option Int × List Event :=
  if env.argc ≠ 2 then (some EXIT_FAILURE, [Event.usage])
  else
    let a := align_alloc5 (env.sysconf 0) env.malloc (fun _ => 0) OPTIMAL_BUFFER_SIZE
    if a.1 = 0 then (some EXIT_FAILURE, a.2.2 ++ [Event.perror Sys.align_alloc])
    else after a.2.2 (session env false OPTIMAL_BUFFER_SIZE (align_free a.2.1 a.1) fuel)

/-- The function `main` of mycat6.c. -/
def main6 (env : Env) (fuel : Nat) : Option Int × List Event :=
  if env.argc ≠ 2 then (some EXIT_FAILURE, [Event.usage])
  else
    let a := align_alloc5 (env.sysconf 0) env.malloc (fun _ => 0) OPTIMAL_BUFFER_SIZE
    if a.1 = 0 then (some EXIT_FAILURE, a.2.2 ++ [Event.perror Sys.align_alloc])
    else after a.2.2 (session env true OPTIMAL_BUFFER_SIZE (align_free a.2.1 a.1) fuel)

/-! ## Hypotheses on the environment -/

/-- Every `write` call from index `i0` on succeeds and transfers at least one and at
most the requested number of bytes. -/
def WriteOKFrom (w : WriteOracle) (i0 : Nat) : Prop :=
  ∀ j r, i0 ≤ j → 0 < r → 1 ≤ (w j r).ret.val ∧ (w j r).ret.val ≤ (r : Int)

/-- Every `write` call succeeds and transfers at least one and at most the requested
number of bytes. -/
def WriteOK (w : WriteOracle) : Prop := WriteOKFrom w 0

/-- Every `write` call transfers exactly one byte. -/
def WriteOneByte (w : WriteOracle) : Prop :=
  ∀ j r, 0 < r → (w j r).ret.val = 1

/-- A `write` that behaves as POSIX says: it fails with `-1` or transfers between `0`
and the requested number of bytes. -/
def WriteConforming (w : WriteOracle) : Prop :=
  ∀ j r, (w j r).ret.val = -1 ∨ (0 ≤ (w j r).ret.val ∧ (w j r).ret.val ≤ (r : Int))

/-- No `write` call fails with `EINTR`. -/
def NoEINTR (w : WriteOracle) : Prop :=
  ∀ j r, ¬ ((w j r).ret.val = -1 ∧ (w j r).errno = EINTR)

/-- While bytes remain `read` returns between one byte and the smaller of the request
and the rest of the file, and at the end of the file it returns `0`. -/
def ReadOK (rd : ReadOracle) (F : List Byte) (B : Nat) : Prop :=
  ∀ i off,
    (off < F.length → 1 ≤ (rd i off B).val ∧ (rd i off B).val ≤ ((min B (F.length - off) : Nat) : Int)) ∧
    (F.length ≤ off → (rd i off B).val = 0)

/-! ## Observations on a run -/

/-- The call is a `write` that failed with `EINTR`. -/
def Event.failed_eintr : Event → Bool
  | Event.write _ _ r e _ => r == -1 && e == EINTR
  | _ => false

/-- The call is a `write` that failed with an error other than `EINTR`. -/
def Event.failed_fatal : Event → Bool
  | Event.write _ _ r e _ => r == -1 && e != EINTR
  | _ => false

/-- The cursor and the byte count a `write` call was given. -/
def Event.request : Event → Option (Int × Nat)
  | Event.write p c _ _ _ => some (p, c)
  | _ => none

/-- A `write` call asking for at least one byte. -/
def Event.is_write : Event → Bool
  | Event.write _ c _ _ _ => decide (0 < c)
  | _ => false

/-- The values returned by the `read` calls of a run, in call order. -/
def reads : List Event → List Int
  | [] => []
  | Event.read _ _ ret :: es => ret :: reads es
  | _ :: es => reads es

/-- The pointer a `free` call was given. -/
def Event.freed : Event → Option Nat
  | Event.free p => some p
  | _ => none

/-- The block a `malloc` call returned, when it is not `NULL`. -/
def Event.malloced : Event → Option Nat
  | Event.malloc _ p => if p = 0 then none else some p
  | _ => none

/-- The buffer an `align_alloc` call returned, when it is not `NULL`. -/
def Event.buffer : Event → Option Nat
  | Event.align_alloc _ p => if p = 0 then none else some p
  | _ => none

/-- The buffer an `align_free` call was given. -/
def Event.released : Event → Option Nat
  | Event.align_free p => some p
  | _ => none

/-- The descriptor an `open` call returned, when it did not fail. -/
def Event.opened : Event → Option Int
  | Event.open_file fd => if fd = -1 then none else some fd
  | _ => none

/-- The descriptor a `close` call was given. -/
def Event.closed : Event → Option Int
  | Event.close fd _ => some fd
  | _ => none

/-- A `read` or `write` call. -/
def Event.is_transfer : Event → Bool
  | Event.read _ _ _ => true
  | Event.write _ _ _ _ _ => true
  | _ => false

/-- The size an `align_alloc` call was asked for. -/
def Event.requested : Event → Option Nat
  | Event.align_alloc size _ => some size
  | _ => none

/-- The sizes `align_alloc` was asked for, in call order. -/
def alloc_requests (tr : List Event) : List Nat := tr.filterMap Event.requested

/-- The pointers passed to `free`, in call order. -/
def frees (tr : List Event) : List Nat := tr.filterMap Event.freed

/-- The blocks `malloc` returned, `NULL` left out, in call order. -/
def mallocs (tr : List Event) : List Nat := tr.filterMap Event.malloced

/-- The buffers `align_alloc` returned, `NULL` left out, in call order. -/
def buffers (tr : List Event) : List Nat := tr.filterMap Event.buffer

/-- The buffers passed to `align_free`, in call order. -/
def align_frees (tr : List Event) : List Nat := tr.filterMap Event.released

/-- The descriptors `open` returned, failures left out, in call order. -/
def opens (tr : List Event) : List Int := tr.filterMap Event.opened

/-- The descriptors passed to `close`, in call order. -/
def closes (tr : List Event) : List Int := tr.filterMap Event.closed

/-- The release discipline of a run with events `tr`: `align_free` is called exactly on the
buffers `align_alloc` returned, at most one; every such call frees one block, which came
from `malloc`; `close` is called exactly on the descriptors `open` returned, at most one. -/
def ReleasedOnce (tr : List Event) : Prop :=
  align_frees tr = buffers tr ∧ (buffers tr).length ≤ 1 ∧
  (frees tr).length = (buffers tr).length ∧ (∀ p ∈ frees tr, p ∈ mallocs tr) ∧
  closes tr = opens tr ∧ (opens tr).length ≤ 1

/-! ## Some concrete environments -/

/-- A `read` that returns all the bytes available, up to the size of the request. -/
def full_read (F : List Byte) : ReadOracle := fun _ off count =>
  ⟨((min (min count (F.length - off)) SSIZE_MAX : Nat) : Int),
    by unfold SSIZE_MAX; omega, by unfold SSIZE_MAX; omega⟩

/-- A `write` that transfers every byte it is given. -/
def full_write : WriteOracle := fun _ count =>
  ⟨⟨((min count SSIZE_MAX : Nat) : Int), by unfold SSIZE_MAX; omega, by unfold SSIZE_MAX; omega⟩, 0⟩

/-- A `write` that transfers one byte per call. -/
def one_byte_write : WriteOracle := fun _ _ => ⟨⟨1, by decide, by decide⟩, 0⟩

/-- A `write` that fails with `EINTR` on its first call and transfers one byte per call
afterwards. -/
def eintr_once_write : WriteOracle := fun i _ =>
  if i = 0 then ⟨⟨-1, by decide, by decide⟩, EINTR⟩ else ⟨⟨1, by decide, by decide⟩, 0⟩

/-- A `sysconf` whose page-size query fails at every call. -/
def sysconf_fails : Nat → Int := fun _ => -1

/-- An environment in which every call but `sysconf(_SC_PAGESIZE)` succeeds: the file
holds the two bytes `hi`, `malloc` returns the address `0x10000`, `open` returns 3. -/
def env_no_page_size : Env where
  argc := 2
  sysconf := sysconf_fails
  malloc := fun _ => 65536
  stat_ret := 0
  st_blksize := 4096
  open_ret := 3
  fadvise_ret := 0
  close_ret := 0
  file := [104, 105]
  garbage := []
  read := full_read [104, 105]
  write := full_write

/-- An environment in which every call succeeds and `stat` reports the block size `b`:
the page size is 4096, the file holds the two bytes `hi`. -/
def env_blksize (b : Int) : Env where
  argc := 2
  sysconf := fun _ => 4096
  malloc := fun _ => 65536
  stat_ret := 0
  st_blksize := b
  open_ret := 3
  fadvise_ret := 0
  close_ret := 0
  file := [104, 105]
  garbage := []
  read := full_read [104, 105]
  write := full_write

/-- A `write` that fails with `EINTR` at every call. -/
def eintr_write : WriteOracle := fun _ _ => ⟨⟨-1, by decide, by decide⟩, EINTR⟩

/-- An environment in which every call succeeds but `write`, which fails with `EINTR`. -/
def env_eintr : Env where
  argc := 2
  sysconf := fun _ => 4096
  malloc := fun _ => 65536
  stat_ret := 0
  st_blksize := 4096
  open_ret := 3
  fadvise_ret := 0
  close_ret := 0
  file := [104, 105]
  garbage := []
  read := full_read [104, 105]
  write := eintr_write

/-- An environment in which every call succeeds, on a file of 300000 bytes: the page
size is 4096, `malloc` returns the address `0x10000`, `open` returns 3, `read` returns all
that is available and `write` transfers all it is given. -/
def env_300000 : Env where
  argc := 2
  sysconf := fun _ => 4096
  malloc := fun _ => 65536
  stat_ret := 0
  st_blksize := 4096
  open_ret := 3
  fadvise_ret := 0
  close_ret := 0
  file := List.replicate 300000 7
  garbage := []
  read := full_read (List.replicate 300000 7)
  write := full_write

/-! ## Machine arithmetic -/

theorem to_size_of_lt (n : Nat) (h : n < 2 ^ 64) : to_size (n : Int) = n := by
  unfold to_size
  have : ((n : Int)) % (2 : Int) ^ 64 = (n : Int) := Int.emod_eq_of_lt (by omega) (by omega)
  rw [this]
  simp

theorem to_size_sub (a : Nat) (k : Int) (h0 : 0 ≤ k) (hk : k ≤ a) (ha : a < 2 ^ 64) :
    to_size ((a : Int) - k) = a - k.toNat := by
  obtain ⟨m, rfl⟩ := Int.eq_ofNat_of_zero_le h0
  have hm : m ≤ a := by omega
  have : ((a : Int) - (m : Int)) = ((a - m : Nat) : Int) := by omega
  rw [this, to_size_of_lt _ (by omega)]
  simp

theorem to_ssize_of_le (n : Nat) (h : n ≤ SSIZE_MAX) : to_ssize n = (n : Int) := by
  unfold SSIZE_MAX at h
  unfold to_ssize
  have e : n % 2 ^ 64 = n := Nat.mod_eq_of_lt (by omega)
  rw [e, if_pos (by omega)]

/-! ## `write_all` under well-behaved writes -/

theorem output_cons_write (p : Int) (c : Nat) (r : Int) (e : Nat) (d : List Byte) (es : List Event) :
    output (Event.write p c r e d :: es) = d ++ output es := rfl

theorem sent_nat (buf : List Byte) (p k : Nat) :
    sent buf (p : Int) (k : Int) = (buf.drop p).take k := by
  simp [sent]

theorem take_drop_split (buf : List Byte) (p k n : Nat) (h : k ≤ n) :
    (buf.drop p).take k ++ (buf.drop (p + k)).take (n - k) = (buf.drop p).take n := by
  have e : n = k + (n - k) := by omega
  conv_rhs => rw [e, List.take_add]
  rw [List.drop_drop]

/-- With writes that succeed from index `i` on, the loop of `write_all` ends within
`bytes_left` calls, returns `count` and has sent the `bytes_left` bytes at the cursor. -/
theorem write_all_loop_ok (w : WriteOracle) (buf : List Byte) (count : Nat) :
    ∀ (fuel i bytes_left p : Nat), WriteOKFrom w i → bytes_left < 2 ^ 64 → bytes_left ≤ fuel →
      (write_all_loop w buf count fuel i bytes_left (p : Int)).1 = some (to_ssize count) ∧
      (write_all_loop w buf count fuel i bytes_left (p : Int)).2.length ≤ bytes_left ∧
      (0 < bytes_left → 0 < (write_all_loop w buf count fuel i bytes_left (p : Int)).2.length) ∧
      output (write_all_loop w buf count fuel i bytes_left (p : Int)).2 =
        (buf.drop p).take bytes_left := by
  intro fuel
  induction fuel with
  | zero =>
    intro i bytes_left p _ _ hf
    have : bytes_left = 0 := by omega
    subst this
    simp [write_all_loop, output]
  | succ fuel ih =>
    intro i bytes_left p hw hb hf
    by_cases h0 : bytes_left = 0
    · subst h0
      simp [write_all_loop, output]
    · have hpos : 0 < bytes_left := Nat.pos_of_ne_zero h0
      obtain ⟨h1, h2⟩ := hw i bytes_left (le_refl _) hpos
      obtain ⟨k, hk⟩ := Int.eq_ofNat_of_zero_le (show 0 ≤ (w i bytes_left).ret.val by omega)
      have hk1 : 1 ≤ k := by omega
      have hk2 : k ≤ bytes_left := by omega
      have hne : (w i bytes_left).ret.val ≠ -1 := by omega
      have hw' : WriteOKFrom w (i + 1) := fun j r hj hr => hw j r (by omega) hr
      have e1 : to_size ((bytes_left : Int) - (w i bytes_left).ret.val) = bytes_left - k := by
        rw [to_size_sub _ _ (by omega) h2 hb, hk]
        simp
      have e2 : (p : Int) + (w i bytes_left).ret.val = ((p + k : Nat) : Int) := by
        rw [hk]; simp
      obtain ⟨r1, r2, r3, r4⟩ := ih (i + 1) (bytes_left - k) (p + k) hw' (by omega) (by omega)
      simp only [write_all_loop, if_pos hpos, if_neg hne, e1, e2, List.length_cons,
        output_cons_write]
      refine ⟨r1, by omega, fun _ => by omega, ?_⟩
      rw [r4, hk, sent_nat, take_drop_split _ _ _ _ hk2]

/-- With one byte per `write`, the loop of `write_all` makes exactly `bytes_left` calls. -/
theorem write_all_loop_one_byte (w : WriteOracle) (buf : List Byte) (count : Nat) :
    ∀ (fuel i bytes_left : Nat) (ptr : Int), WriteOneByte w → bytes_left < 2 ^ 64 →
      bytes_left ≤ fuel →
      (write_all_loop w buf count fuel i bytes_left ptr).2.length = bytes_left := by
  intro fuel
  induction fuel with
  | zero =>
    intro i bytes_left ptr _ _ hf
    have : bytes_left = 0 := by omega
    subst this
    simp [write_all_loop]
  | succ fuel ih =>
    intro i bytes_left ptr hw hb hf
    by_cases h0 : bytes_left = 0
    · subst h0
      simp [write_all_loop]
    · have hpos : 0 < bytes_left := Nat.pos_of_ne_zero h0
      have h1 := hw i bytes_left hpos
      have hne : (w i bytes_left).ret.val ≠ -1 := by omega
      have e1 : to_size ((bytes_left : Int) - (w i bytes_left).ret.val) = bytes_left - 1 := by
        rw [to_size_sub _ _ (by omega) (by omega) hb, h1]
        simp
      have r := ih (i + 1) (bytes_left - 1) (ptr + (w i bytes_left).ret.val) hw (by omega)
        (by omega)
      simp only [write_all_loop, if_pos hpos, if_neg hne, e1, List.length_cons, r]
      omega

theorem sent_neg_one (buf : List Byte) (ptr : Int) : sent buf ptr (-1) = [] := by
  simp [sent]

/-- With a conforming `write`, whenever the loop of `write_all` returns a value other than
`-1`, that value is `count` and exactly the `bytes_left` bytes at the cursor were sent. -/
theorem write_all_loop_success (w : WriteOracle) (buf : List Byte) (count : Nat)
    (hw : WriteConforming w) :
    ∀ (fuel i bytes_left p : Nat) (v : Int), bytes_left < 2 ^ 64 →
      (write_all_loop w buf count fuel i bytes_left (p : Int)).1 = some v → v ≠ -1 →
      v = to_ssize count ∧
      output (write_all_loop w buf count fuel i bytes_left (p : Int)).2 =
        (buf.drop p).take bytes_left := by
  intro fuel
  induction fuel with
  | zero =>
    intro i bytes_left p v _ h1 _
    by_cases h0 : bytes_left = 0
    · subst h0
      simp [write_all_loop] at h1
      simp [write_all_loop, output, h1]
    · have hpos : 0 < bytes_left := Nat.pos_of_ne_zero h0
      simp [write_all_loop, hpos] at h1
  | succ fuel ih =>
    intro i bytes_left p v hb h1 hv
    by_cases h0 : bytes_left = 0
    · subst h0
      simp [write_all_loop] at h1
      simp [write_all_loop, output, h1]
    · have hpos : 0 < bytes_left := Nat.pos_of_ne_zero h0
      by_cases hf : (w i bytes_left).ret.val = -1
      · by_cases he : (w i bytes_left).errno = EINTR
        · simp only [write_all_loop, if_pos hpos, if_pos hf, if_pos he] at h1 ⊢
          obtain ⟨r1, r2⟩ := ih (i + 1) bytes_left p v hb h1 hv
          rw [output_cons_write, hf, sent_neg_one, r2]
          exact ⟨r1, rfl⟩
        · simp only [write_all_loop, if_pos hpos, if_pos hf, if_neg he] at h1
          exact absurd (Option.some.inj h1).symm hv
      · rcases hw i bytes_left with h | ⟨h1', h2'⟩
        · exact absurd h hf
        · obtain ⟨k, hk⟩ := Int.eq_ofNat_of_zero_le h1'
          have hk2 : k ≤ bytes_left := by omega
          have e1 : to_size ((bytes_left : Int) - (w i bytes_left).ret.val) = bytes_left - k := by
            rw [to_size_sub _ _ h1' h2' hb, hk]
            simp
          have e2 : (p : Int) + (w i bytes_left).ret.val = ((p + k : Nat) : Int) := by
            rw [hk]; simp
          simp only [write_all_loop, if_pos hpos, if_neg hf, e1, e2] at h1 ⊢
          obtain ⟨r1, r2⟩ := ih (i + 1) (bytes_left - k) (p + k) v (by omega) h1 hv
          rw [output_cons_write, r2, hk, sent_nat, take_drop_split _ _ _ _ hk2]
          exact ⟨r1, rfl⟩

/-- Without `EINTR` failures the loops of `write_all` in mycat2.c and mycat3.c agree. -/
theorem write_all2_loop_eq (w : WriteOracle) (buf : List Byte) (count : Nat) (hw : NoEINTR w) :
    ∀ (fuel i bytes_left : Nat) (ptr : Int),
      write_all2_loop w buf count fuel i bytes_left ptr =
        write_all_loop w buf count fuel i bytes_left ptr := by
  intro fuel
  induction fuel with
  | zero => intro i bytes_left ptr; rfl
  | succ fuel ih =>
    intro i bytes_left ptr
    by_cases hpos : 0 < bytes_left
    · by_cases hf : (w i bytes_left).ret.val = -1
      · have he : ¬ (w i bytes_left).errno = EINTR := fun he => hw i bytes_left ⟨hf, he⟩
        simp only [write_all2_loop, write_all_loop, if_pos hpos, if_pos hf, if_neg he]
      · simp only [write_all2_loop, write_all_loop, if_pos hpos, if_neg hf, ih]
    · simp only [write_all2_loop, write_all_loop, if_neg hpos]

/-! ## Failures of `write` -/

/-- With fuel and bytes left, the loop of `write_all` starts with a `write` at the cursor
for all the bytes left. -/
theorem write_all_loop_head (w : WriteOracle) (buf : List Byte) (count fuel i bytes_left : Nat)
    (ptr : Int) (hpos : 0 < bytes_left) :
    ∃ ev, (write_all_loop w buf count (fuel + 1) i bytes_left ptr).2[0]? = some ev ∧
      ev.request = some (ptr, bytes_left) := by
  by_cases hf : (w i bytes_left).ret.val = -1
  · by_cases he : (w i bytes_left).errno = EINTR
    · simp [write_all_loop, hpos, hf, he, Event.request]
    · simp [write_all_loop, hpos, hf, he, Event.request]
  · simp [write_all_loop, hpos, hf, Event.request]

/-- A `write` that fails with `EINTR` is followed, fuel permitting, by a `write` with the same
cursor and the same byte count. -/
theorem write_all_loop_retry (w : WriteOracle) (buf : List Byte) (count : Nat) :
    ∀ (fuel i bytes_left : Nat) (ptr : Int) (j : Nat) (ev : Event),
      (write_all_loop w buf count fuel i bytes_left ptr).2[j]? = some ev →
      ev.failed_eintr = true → j + 1 < fuel →
      ∃ ev1, (write_all_loop w buf count fuel i bytes_left ptr).2[j + 1]? = some ev1 ∧
        ev1.request = ev.request := by
  intro fuel
  induction fuel with
  | zero => intro i bytes_left ptr j ev _ _ hj; omega
  | succ fuel ih =>
    intro i bytes_left ptr j ev h1 h2 hj
    by_cases hpos : 0 < bytes_left
    · by_cases hf : (w i bytes_left).ret.val = -1
      · by_cases he : (w i bytes_left).errno = EINTR
        · simp only [write_all_loop, if_pos hpos, if_pos hf, if_pos he] at h1 ⊢
          cases j with
          | zero =>
            simp only [List.getElem?_cons_zero, Option.some.injEq] at h1
            subst h1
            obtain ⟨f, rfl⟩ : ∃ f, fuel = f + 1 := ⟨fuel - 1, by omega⟩
            simpa [Event.request] using write_all_loop_head w buf count f (i + 1) bytes_left ptr hpos
          | succ j =>
            simp only [List.getElem?_cons_succ] at h1 ⊢
            exact ih (i + 1) bytes_left ptr j ev h1 h2 (by omega)
        · simp only [write_all_loop, if_pos hpos, if_pos hf, if_neg he] at h1
          cases j with
          | zero =>
            simp only [List.getElem?_cons_zero, Option.some.injEq] at h1
            subst h1
            simp [Event.failed_eintr, he] at h2
          | succ j => simp at h1
      · simp only [write_all_loop, if_pos hpos, if_neg hf] at h1 ⊢
        cases j with
        | zero =>
          simp only [List.getElem?_cons_zero, Option.some.injEq] at h1
          subst h1
          simp [Event.failed_eintr, hf] at h2
        | succ j =>
          simp only [List.getElem?_cons_succ] at h1 ⊢
          exact ih (i + 1) _ _ j ev h1 h2 (by omega)
    · simp [write_all_loop, hpos] at h1

/-- A `write` that fails with another error is the last call of the loop of `write_all`. -/
theorem write_all_loop_fatal_last (w : WriteOracle) (buf : List Byte) (count : Nat) :
    ∀ (fuel i bytes_left : Nat) (ptr : Int) (j : Nat) (ev : Event),
      (write_all_loop w buf count fuel i bytes_left ptr).2[j]? = some ev →
      ev.failed_fatal = true →
      (write_all_loop w buf count fuel i bytes_left ptr).2.length = j + 1 := by
  intro fuel
  induction fuel with
  | zero =>
    intro i bytes_left ptr j ev h1 _
    by_cases hpos : 0 < bytes_left <;> simp [write_all_loop, hpos] at h1
  | succ fuel ih =>
    intro i bytes_left ptr j ev h1 h2
    by_cases hpos : 0 < bytes_left
    · by_cases hf : (w i bytes_left).ret.val = -1
      · by_cases he : (w i bytes_left).errno = EINTR
        · simp only [write_all_loop, if_pos hpos, if_pos hf, if_pos he] at h1 ⊢
          cases j with
          | zero =>
            simp only [List.getElem?_cons_zero, Option.some.injEq] at h1
            subst h1
            simp [Event.failed_fatal, he] at h2
          | succ j =>
            simp only [List.getElem?_cons_succ] at h1
            simp only [List.length_cons, ih (i + 1) bytes_left ptr j ev h1 h2]
        · simp only [write_all_loop, if_pos hpos, if_pos hf, if_neg he] at h1 ⊢
          cases j with
          | zero => simp
          | succ j => simp at h1
      · simp only [write_all_loop, if_pos hpos, if_neg hf] at h1 ⊢
        cases j with
        | zero =>
          simp only [List.getElem?_cons_zero, Option.some.injEq] at h1
          subst h1
          simp [Event.failed_fatal, hf] at h2
        | succ j =>
          simp only [List.getElem?_cons_succ] at h1
          simp only [List.length_cons, ih (i + 1) _ _ j ev h1 h2]
    · simp [write_all_loop, hpos] at h1

/-- The loop of `write_all` returns `-1` exactly when one of its `write` calls failed with
an error other than `EINTR`, provided `count` itself is not returned as `-1`. -/
theorem write_all_loop_fails_iff (w : WriteOracle) (buf : List Byte) (count : Nat)
    (hc : to_ssize count ≠ -1) :
    ∀ (fuel i bytes_left : Nat) (ptr : Int),
      (write_all_loop w buf count fuel i bytes_left ptr).1 = some (-1) ↔
      ∃ ev ∈ (write_all_loop w buf count fuel i bytes_left ptr).2, ev.failed_fatal = true := by
  intro fuel
  induction fuel with
  | zero =>
    intro i bytes_left ptr
    by_cases hpos : 0 < bytes_left <;> simp [write_all_loop, hpos, hc]
  | succ fuel ih =>
    intro i bytes_left ptr
    by_cases hpos : 0 < bytes_left
    · by_cases hf : (w i bytes_left).ret.val = -1
      · by_cases he : (w i bytes_left).errno = EINTR
        · simp only [write_all_loop, if_pos hpos, if_pos hf, if_pos he, List.mem_cons,
            exists_eq_or_imp, ih]
          simp [Event.failed_fatal, he]
        · simp [write_all_loop, hpos, hf, he, Event.failed_fatal]
      · simp only [write_all_loop, if_pos hpos, if_neg hf, List.mem_cons, exists_eq_or_imp, ih]
        simp [Event.failed_fatal, hf]
    · simp [write_all_loop, hpos, hc]

/-- Every event of the loop of `write_all` is a `write` asking for at least one byte. -/
theorem write_all_loop_is_write (w : WriteOracle) (buf : List Byte) (count : Nat) :
    ∀ (fuel i bytes_left : Nat) (ptr : Int),
      ∀ ev ∈ (write_all_loop w buf count fuel i bytes_left ptr).2, ev.is_write = true := by
  intro fuel
  induction fuel with
  | zero =>
    intro i bytes_left ptr
    by_cases hpos : 0 < bytes_left <;> simp [write_all_loop, hpos]
  | succ fuel ih =>
    intro i bytes_left ptr
    by_cases hpos : 0 < bytes_left
    · by_cases hf : (w i bytes_left).ret.val = -1
      · by_cases he : (w i bytes_left).errno = EINTR
        · simp only [write_all_loop, if_pos hpos, if_pos hf, if_pos he, List.mem_cons,
            forall_eq_or_imp]
          exact ⟨by simp [Event.is_write, hpos], ih _ _ _⟩
        · simp [write_all_loop, hpos, hf, he, Event.is_write]
      · simp only [write_all_loop, if_pos hpos, if_neg hf, List.mem_cons, forall_eq_or_imp]
        exact ⟨by simp [Event.is_write, hpos], ih _ _ _⟩
    · simp [write_all_loop, hpos]

/-! ## The copy loop -/

theorem output_append (a b : List Event) : output (a ++ b) = output a ++ output b := by
  induction a with
  | nil => rfl
  | cons e es ih => cases e <;> simp [output, ih]

theorem reads_append (a b : List Event) : reads (a ++ b) = reads a ++ reads b := by
  induction a with
  | nil => rfl
  | cons e es ih => cases e <;> simp [reads, ih]

theorem reads_of_writes (a : List Event) (h : ∀ ev ∈ a, ev.is_write = true) : reads a = [] := by
  induction a with
  | nil => rfl
  | cons e es ih =>
    have he := h e (List.mem_cons_self _ _)
    have hes := ih (fun ev hev => h ev (List.mem_cons_of_mem _ hev))
    cases e <;> simp [Event.is_write] at he
    simp [reads, hes]

/-- One turn of the copy loop when `read` returns `n >= 1` bytes, all of them inside the
file, and the writes succeed: the turn reads, sends the `n` bytes at the file offset and
goes on from the new offset. -/
theorem copy_loop_step (rd : ReadOracle) (w : WriteOracle) (F : List Byte) (fd : Int) (B : Nat)
    (fuel ri wi off n : Nat) (buffer : List Byte)
    (hn : (rd ri off B).val = (n : Int)) (h1 : 1 ≤ n) (h2 : off + n ≤ F.length) (hf : n ≤ fuel)
    (hw : WriteOK w) :
    ∃ (evs : List Event) (buffer1 : List Byte),
      (∀ ev ∈ evs, ev.is_write = true) ∧ output evs = (F.drop off).take n ∧
      copy_loop rd w F fd B (fuel + 1) ri wi off buffer =
        ((copy_loop rd w F fd B fuel (ri + 1) (wi + evs.length) (off + n) buffer1).1,
          Event.read fd B n ::
            (evs ++ (copy_loop rd w F fd B fuel (ri + 1) (wi + evs.length) (off + n) buffer1).2)) := by
  have hlt : n < 2 ^ 64 := by
    have := (rd ri off B).hi
    omega
  have hmax : n ≤ SSIZE_MAX := by
    have := (rd ri off B).hi
    unfold SSIZE_MAX
    omega
  have hgot : ((F.drop off).take n).length = n := by
    rw [List.length_take, List.length_drop]
    omega
  have hw' : WriteOKFrom w wi := fun j r _ hr => hw j r (Nat.zero_le _) hr
  obtain ⟨r1, _, _, r4⟩ := write_all_loop_ok w
    ((F.drop off).take n ++ buffer.drop ((F.drop off).take n).length) n fuel wi n 0 hw' hlt hf
  have hne : to_ssize n ≠ -1 := by
    rw [to_ssize_of_le n hmax]
    omega
  refine ⟨(write_all w ((F.drop off).take n ++ buffer.drop ((F.drop off).take n).length)
      wi n fuel).2, (F.drop off).take n ++ buffer.drop ((F.drop off).take n).length, ?_, ?_, ?_⟩
  · exact write_all_loop_is_write w _ n fuel wi n 0
  · show output (write_all_loop w _ n fuel wi n ((0 : Nat) : Int)).2 = _
    rw [r4]
    simp only [List.drop_zero]
    rw [List.take_append_of_le_length (by omega), List.take_of_length_le (by omega)]
  · have hpos : (n : Int) > 0 := by omega
    have e : ((n : Int)).toNat = n := by simp
    have r1' : (write_all w ((F.drop off).take n ++ buffer.drop ((F.drop off).take n).length)
        wi n fuel).1 = some (to_ssize n) := r1
    simp only [copy_loop, hn, if_pos hpos, e, r1', if_neg hne]

/-- The copy loop when `read` returns `0`: the loop is left. -/
theorem copy_loop_eof (rd : ReadOracle) (w : WriteOracle) (F : List Byte) (fd : Int) (B : Nat)
    (fuel ri wi off : Nat) (buffer : List Byte) (hn : (rd ri off B).val = 0) :
    copy_loop rd w F fd B (fuel + 1) ri wi off buffer =
      (some (LoopEnd.ended 0), [Event.read fd B 0]) := by
  simp [copy_loop, hn]

/-- The copy loop from offset `off`, with good reads and writes and more fuel than bytes
left: it meets the end of the file and has sent the rest of the file. -/
theorem copy_loop_from (rd : ReadOracle) (w : WriteOracle) (F : List Byte) (fd : Int) (B : Nat)
    (hr : ReadOK rd F B) (hw : WriteOK w) :
    ∀ (fuel ri wi off : Nat) (buffer : List Byte), F.length - off < fuel →
      (copy_loop rd w F fd B fuel ri wi off buffer).1 = some (LoopEnd.ended 0) ∧
      output (copy_loop rd w F fd B fuel ri wi off buffer).2 = F.drop off := by
  intro fuel
  induction fuel with
  | zero => intro ri wi off buffer h; omega
  | succ fuel ih =>
    intro ri wi off buffer h
    by_cases hoff : F.length ≤ off
    · rw [copy_loop_eof rd w F fd B fuel ri wi off buffer ((hr ri off).2 hoff)]
      simp [output, List.drop_eq_nil_of_le hoff]
    · have hlt : off < F.length := by omega
      obtain ⟨a1, a2⟩ := (hr ri off).1 hlt
      obtain ⟨n, hn⟩ := Int.eq_ofNat_of_zero_le (show 0 ≤ (rd ri off B).val by omega)
      have hn1 : 1 ≤ n := by omega
      have hn2 : n ≤ F.length - off := by
        have : n ≤ min B (F.length - off) := by omega
        exact le_trans this (Nat.min_le_right _ _)
      obtain ⟨evs, buffer1, _, c2, c3⟩ := copy_loop_step rd w F fd B fuel ri wi off n buffer
        hn hn1 (by omega) (by omega) hw
      obtain ⟨d1, d2⟩ := ih (ri + 1) (wi + evs.length) (off + n) buffer1 (by omega)
      rw [c3]
      refine ⟨d1, ?_⟩
      show output (evs ++ _) = _
      rw [output_append, c2, d2, ← List.drop_drop, List.take_append_drop]

theorem full_read_ok (F : List Byte) (B : Nat) (hB : 1 ≤ B) : ReadOK (full_read F) F B := by
  intro i off
  constructor
  · intro h
    simp only [full_read]
    unfold SSIZE_MAX
    omega
  · intro h
    simp only [full_read]
    omega

theorem full_write_ok : WriteOK full_write := by
  intro j r _ hr
  simp only [full_write]
  unfold SSIZE_MAX
  omega

theorem one_byte_write_ok : WriteOK one_byte_write := by
  intro j r _ hr
  simp only [one_byte_write]
  omega

theorem full_read_val (F : List Byte) (i off B n : Nat) (h : min B (F.length - off) = n)
    (hn : n ≤ SSIZE_MAX) : (full_read F i off B).val = (n : Int) := by
  simp only [full_read, h, Nat.min_eq_left hn]

/-- The run of the copy loop on a file of 300000 bytes with a buffer of 128 KiB, reads that
return all that is available and writes that succeed. -/
theorem copy_loop_300000 (w : WriteOracle) (F : List Byte) (fd : Int) (buffer : List Byte)
    (hF : F.length = 300000) (hw : WriteOK w) (fuel : Nat) (hfuel : 300000 < fuel) :
    (copy_loop (full_read F) w F fd OPTIMAL_BUFFER_SIZE fuel 0 0 0 buffer).1
        = some (LoopEnd.ended 0) ∧
    reads (copy_loop (full_read F) w F fd OPTIMAL_BUFFER_SIZE fuel 0 0 0 buffer).2
        = [131072, 131072, 37856, 0] ∧
    output (copy_loop (full_read F) w F fd OPTIMAL_BUFFER_SIZE fuel 0 0 0 buffer).2 = F := by
  have hB : OPTIMAL_BUFFER_SIZE = 131072 := by decide
  have hS : SSIZE_MAX = 9223372036854775807 := by decide
  refine ⟨?_, ?_, ?_⟩
  · exact (copy_loop_from (full_read F) w F fd OPTIMAL_BUFFER_SIZE
      (full_read_ok F OPTIMAL_BUFFER_SIZE (by decide)) hw
      fuel 0 0 0 buffer (by omega)).1
  · obtain ⟨f, rfl⟩ : ∃ f, fuel = f + 4 := ⟨fuel - 4, by omega⟩
    obtain ⟨e1, b1, w1, _, c1⟩ := copy_loop_step (full_read F) w F fd OPTIMAL_BUFFER_SIZE
      (f + 3) 0 0 0 131072 buffer
      (full_read_val F 0 0 _ 131072 (by rw [hB, hF]; decide) (by rw [hS]; decide))
      (by decide) (by omega) (by omega) hw
    obtain ⟨e2, b2, w2, _, c2⟩ := copy_loop_step (full_read F) w F fd OPTIMAL_BUFFER_SIZE
      (f + 2) (0 + 1) (0 + e1.length) (0 + 131072) 131072 b1
      (full_read_val F _ _ _ 131072 (by rw [hB, hF]; decide) (by rw [hS]; decide))
      (by decide) (by omega) (by omega) hw
    obtain ⟨e3, b3, w3, _, c3⟩ := copy_loop_step (full_read F) w F fd OPTIMAL_BUFFER_SIZE
      (f + 1) (0 + 1 + 1) (0 + e1.length + e2.length) (0 + 131072 + 131072) 37856 b2
      (full_read_val F _ _ _ 37856 (by rw [hB, hF]; decide) (by rw [hS]; decide))
      (by decide) (by omega) (by omega) hw
    have c4 := copy_loop_eof (full_read F) w F fd OPTIMAL_BUFFER_SIZE f (0 + 1 + 1 + 1)
      (0 + e1.length + e2.length + e3.length) (0 + 131072 + 131072 + 37856) b3
      (full_read_val F _ _ _ 0 (by rw [hB, hF]; decide) (by rw [hS]; decide))
    rw [c1, c2, c3, c4]
    simp [reads, reads_append, reads_of_writes _ w1, reads_of_writes _ w2, reads_of_writes _ w3]
  · have := (copy_loop_from (full_read F) w F fd OPTIMAL_BUFFER_SIZE
      (full_read_ok F OPTIMAL_BUFFER_SIZE (by decide)) hw
      fuel 0 0 0 buffer (by omega)).2
    simpa using this

/-! ## Resources of a run -/

theorem is_transfer_of_is_write (ev : Event) (h : ev.is_write = true) : ev.is_transfer = true := by
  cases ev <;> simp_all [Event.is_write, Event.is_transfer]

/-- The copy loop only makes `read` and `write` calls. -/
theorem copy_loop_is_transfer (rd : ReadOracle) (w : WriteOracle) (F : List Byte) (fd : Int) (B : Nat) :
    ∀ (fuel ri wi off : Nat) (buffer : List Byte),
      ∀ ev ∈ (copy_loop rd w F fd B fuel ri wi off buffer).2, ev.is_transfer = true := by
  intro fuel
  induction fuel with
  | zero => intro ri wi off buffer; simp [copy_loop]
  | succ fuel ih =>
    intro ri wi off buffer ev hev
    simp only [copy_loop] at hev
    split at hev
    · split at hev
      · rcases List.mem_cons.1 hev with h | h
        · subst h; rfl
        · exact is_transfer_of_is_write _ (write_all_loop_is_write w _ _ _ _ _ _ ev h)
      · split at hev
        · rcases List.mem_cons.1 hev with h | h
          · subst h; rfl
          · exact is_transfer_of_is_write _ (write_all_loop_is_write w _ _ _ _ _ _ ev h)
        · rcases List.mem_cons.1 hev with h | h
          · subst h; rfl
          · rcases List.mem_append.1 h with h | h
            · exact is_transfer_of_is_write _ (write_all_loop_is_write w _ _ _ _ _ _ ev h)
            · exact ih _ _ _ _ ev h
    · rcases List.mem_cons.1 hev with h | h
      · subst h; rfl
      · simp at h

theorem filterMap_transfer {α : Type} (f : Event → Option α)
    (hf : ∀ ev, ev.is_transfer = true → f ev = none) (l : List Event)
    (hl : ∀ ev ∈ l, ev.is_transfer = true) : l.filterMap f = [] := by
  induction l with
  | nil => rfl
  | cons e es ih =>
    rw [List.filterMap_cons, hf e (hl e (List.mem_cons_self _ _))]
    exact ih (fun ev hev => hl ev (List.mem_cons_of_mem _ hev))

/-- An observation that ignores `open`, `close`, `posix_fadvise`, `perror`, `read` and
`write` sees, in a run of `session` that exits, what it sees in the release of the buffer. -/
theorem session_release {α : Type} (f : Event → Option α)
    (h1 : ∀ ev, ev.is_transfer = true → f ev = none) (h2 : ∀ fd, f (Event.open_file fd) = none)
    (h3 : ∀ fd r, f (Event.close fd r) = none) (h4 : ∀ fd r, f (Event.posix_fadvise fd r) = none)
    (h5 : ∀ s, f (Event.perror s) = none)
    (env : Env) (advise : Bool) (B : Nat) (release : List Event) (fuel : Nat) (code : Int)
    (h : (session env advise B release fuel).1 = some code) :
    (session env advise B release fuel).2.filterMap f = release.filterMap f := by
  have hio := filterMap_transfer f h1 _
    (copy_loop_is_transfer env.read env.write env.file env.open_ret B fuel 0 0 0 env.garbage)
  unfold session at h ⊢
  by_cases hfd : env.open_ret = -1
  · simp [hfd, h2, h5]
  · simp only [if_neg hfd] at h ⊢
    generalize copy_loop env.read env.write env.file env.open_ret B fuel 0 0 0 env.garbage = l
      at h hio ⊢
    obtain ⟨le, levs⟩ := l
    have hadv : ∀ (b : Bool) (x : Int), List.filterMap f
        (if b = true then Event.posix_fadvise env.open_ret x ::
          (if x ≠ 0 then [Event.perror Sys.posix_fadvise] else []) else []) = [] := by
      intro b x
      cases b <;> by_cases hx : x = 0 <;> simp [hx, h4, h5]
    cases le with
    | none => simp at h
    | some e =>
      have hio1 : List.filterMap f levs = [] := hio
      cases e with
      | write_failed =>
        simp only [List.filterMap_cons, List.filterMap_append, h2, h3, h5, hadv, hio1,
          List.nil_append, List.filterMap_nil, List.append_nil]
      | ended bytes_read =>
        by_cases hb : bytes_read = -1
        · simp only [if_pos hb, List.filterMap_cons, List.filterMap_append, h2, h3, h5, hadv,
            hio1, List.nil_append, List.filterMap_nil, List.append_nil]
        · by_cases hc : env.close_ret = -1
          · simp only [if_neg hb, if_pos hc, List.filterMap_cons, List.filterMap_append, h2, h3,
              h5, hadv, hio1, List.nil_append, List.filterMap_nil, List.append_nil]
          · simp only [if_neg hb, if_neg hc, List.filterMap_cons, List.filterMap_append, h2, h3,
              h5, hadv, hio1, List.nil_append, List.filterMap_nil, List.append_nil]

/-- In a run of `session` that exits, an opened descriptor is closed exactly once, and
nothing else is closed, when the release of the buffer opens and closes nothing. -/
theorem session_closes (env : Env) (advise : Bool) (B : Nat) (release : List Event) (fuel : Nat)
    (code : Int) (hr1 : opens release = []) (hr2 : closes release = [])
    (h : (session env advise B release fuel).1 = some code) :
    closes (session env advise B release fuel).2 = opens (session env advise B release fuel).2 ∧
    (opens (session env advise B release fuel).2).length ≤ 1 := by
  have hio1 := filterMap_transfer Event.opened (fun ev hev => by cases ev <;> simp_all [Event.is_transfer, Event.opened]) _
    (copy_loop_is_transfer env.read env.write env.file env.open_ret B fuel 0 0 0 env.garbage)
  have hio2 := filterMap_transfer Event.closed (fun ev hev => by cases ev <;> simp_all [Event.is_transfer, Event.closed]) _
    (copy_loop_is_transfer env.read env.write env.file env.open_ret B fuel 0 0 0 env.garbage)
  unfold opens at hr1 ⊢
  unfold closes at hr2 ⊢
  unfold session at h ⊢
  by_cases hfd : env.open_ret = -1
  · simp [hfd, hr1, hr2, Event.opened, Event.closed]
  · simp only [if_neg hfd] at h ⊢
    generalize copy_loop env.read env.write env.file env.open_ret B fuel 0 0 0 env.garbage = l
      at h hio1 hio2 ⊢
    obtain ⟨le, levs⟩ := l
    have hadv1 : ∀ (b : Bool) (x : Int), List.filterMap Event.opened
        (if b = true then Event.posix_fadvise env.open_ret x ::
          (if x ≠ 0 then [Event.perror Sys.posix_fadvise] else []) else []) = [] := by
      intro b x
      cases b <;> by_cases hx : x = 0 <;> simp [hx, Event.opened]
    have hadv2 : ∀ (b : Bool) (x : Int), List.filterMap Event.closed
        (if b = true then Event.posix_fadvise env.open_ret x ::
          (if x ≠ 0 then [Event.perror Sys.posix_fadvise] else []) else []) = [] := by
      intro b x
      cases b <;> by_cases hx : x = 0 <;> simp [hx, Event.closed]
    have ho : Event.opened (Event.open_file env.open_ret) = some env.open_ret := by
      simp [Event.opened, hfd]
    have hc : ∀ r, Event.closed (Event.close env.open_ret r) = some env.open_ret := fun _ => rfl
    have hp1 : ∀ s, Event.opened (Event.perror s) = none := fun _ => rfl
    have hp2 : ∀ s, Event.closed (Event.perror s) = none := fun _ => rfl
    have hp3 : ∀ r, Event.opened (Event.close env.open_ret r) = none := fun _ => rfl
    have hp4 : Event.closed (Event.open_file env.open_ret) = none := rfl
    cases le with
    | none => simp at h
    | some e =>
      have hl1 : List.filterMap Event.opened levs = [] := hio1
      have hl2 : List.filterMap Event.closed levs = [] := hio2
      cases e with
      | write_failed =>
        simp only [List.filterMap_cons, List.filterMap_append, ho, hc, hp1, hp2, hp3, hp4, hadv1,
          hadv2, hl1, hl2, hr1, hr2, List.nil_append, List.filterMap_nil, List.append_nil]
        simp
      | ended bytes_read =>
        by_cases hb : bytes_read = -1
        · simp only [if_pos hb, List.filterMap_cons, List.filterMap_append, ho, hc, hp1, hp2, hp3,
            hp4, hadv1, hadv2, hl1, hl2, hr1, hr2, List.nil_append, List.filterMap_nil,
            List.append_nil]
          simp
        · by_cases hcl : env.close_ret = -1
          · simp only [if_neg hb, if_pos hcl, List.filterMap_cons, List.filterMap_append, ho, hc,
              hp1, hp2, hp3, hp4, hadv1, hadv2, hl1, hl2, hr1, hr2, List.nil_append,
              List.filterMap_nil, List.append_nil]
            simp
          · simp only [if_neg hb, if_neg hcl, List.filterMap_cons, List.filterMap_append, ho, hc,
              hp1, hp2, hp3, hp4, hadv1, hadv2, hl1, hl2, hr1, hr2, List.nil_append,
              List.filterMap_nil, List.append_nil]
            simp

/-- What `align_alloc` of mycat5.c and mycat6.c leaves behind: when it returns `NULL`
no buffer is recorded; otherwise the block of `malloc` is not `NULL` and `align_free` of the
returned buffer frees exactly that block. -/
theorem align_alloc5_events (sc : Int) (malloc : Nat → Nat) (mem : Mem) (size : Nat) :
    ∃ (page_size : Int) (p1 : Nat),
      (align_alloc5 sc malloc mem size).2.2 =
        [Event.sysconf sc, Event.malloc (alloc_size size page_size) p1,
          Event.align_alloc size (align_alloc5 sc malloc mem size).1] ∧
      ((align_alloc5 sc malloc mem size).1 ≠ 0 → p1 ≠ 0 ∧
        align_free (align_alloc5 sc malloc mem size).2.1 (align_alloc5 sc malloc mem size).1 =
          [Event.align_free (align_alloc5 sc malloc mem size).1, Event.free p1]) := by
  refine ⟨if sc = -1 then 4096 else sc, malloc (alloc_size size (if sc = -1 then 4096 else sc)),
    ?_, ?_⟩
  · simp only [align_alloc5, align_alloc_with]
    generalize (if sc = -1 then (4096 : Int) else sc) = ps
    by_cases hp : malloc (alloc_size size ps) = 0
    · simp [hp]
    · simp [hp]
  · simp only [align_alloc5, align_alloc_with]
    generalize (if sc = -1 then (4096 : Int) else sc) = ps
    by_cases hp : malloc (alloc_size size ps) = 0
    · simp [hp]
    · simp only [if_neg hp]
      intro h
      refine ⟨hp, ?_⟩
      simp only [align_free, if_neg h, Function.update_same]

theorem main6_released (env : Env) (fuel : Nat) (code : Int)
    (h : (main6 env fuel).1 = some code) : ReleasedOnce (main6 env fuel).2 := by
  unfold main6 at h ⊢
  by_cases hargc : env.argc = 2
  · simp only [ne_eq, hargc, not_true_eq_false, if_false] at h ⊢
    obtain ⟨ps, p1, e1, e2⟩ :=
      align_alloc5_events (env.sysconf 0) env.malloc (fun _ => 0) OPTIMAL_BUFFER_SIZE
    generalize align_alloc5 (env.sysconf 0) env.malloc (fun _ => 0) OPTIMAL_BUFFER_SIZE = a
      at h e1 e2 ⊢
    obtain ⟨a1, mem, evs⟩ := a
    simp only at e1 e2 h ⊢
    subst e1
    by_cases ha : a1 = 0
    · subst ha
      simp [ReleasedOnce, align_frees, buffers, frees, mallocs, closes, opens, Event.released,
        Event.buffer, Event.freed, Event.closed, Event.opened]
    · obtain ⟨hp1, hfree⟩ := e2 ha
      simp only [if_neg ha, after] at h ⊢
      rw [hfree] at h ⊢
      have r1 := session_release Event.released
        (fun ev hev => by cases ev <;> simp_all [Event.is_transfer, Event.released])
        (fun _ => rfl) (fun _ _ => rfl) (fun _ _ => rfl) (fun _ => rfl)
        env true OPTIMAL_BUFFER_SIZE [Event.align_free a1, Event.free p1] fuel code h
      have r2 := session_release Event.buffer
        (fun ev hev => by cases ev <;> simp_all [Event.is_transfer, Event.buffer])
        (fun _ => rfl) (fun _ _ => rfl) (fun _ _ => rfl) (fun _ => rfl)
        env true OPTIMAL_BUFFER_SIZE [Event.align_free a1, Event.free p1] fuel code h
      have r3 := session_release Event.freed
        (fun ev hev => by cases ev <;> simp_all [Event.is_transfer, Event.freed])
        (fun _ => rfl) (fun _ _ => rfl) (fun _ _ => rfl) (fun _ => rfl)
        env true OPTIMAL_BUFFER_SIZE [Event.align_free a1, Event.free p1] fuel code h
      have r4 := session_release Event.malloced
        (fun ev hev => by cases ev <;> simp_all [Event.is_transfer, Event.malloced])
        (fun _ => rfl) (fun _ _ => rfl) (fun _ _ => rfl) (fun _ => rfl)
        env true OPTIMAL_BUFFER_SIZE [Event.align_free a1, Event.free p1] fuel code h
      obtain ⟨r5, r6⟩ := session_closes env true OPTIMAL_BUFFER_SIZE
        [Event.align_free a1, Event.free p1] fuel code rfl rfl h
      unfold opens closes at r5
      unfold opens at r6
      simp only [ReleasedOnce, align_frees, buffers, frees, mallocs, closes, opens,
        List.filterMap_append, r1, r2, r3, r4, r5]
      simp [Event.released, Event.buffer, Event.freed, Event.malloced, Event.closed,
        Event.opened, ha, hp1]
      exact r6
  · simp [hargc, ReleasedOnce, align_frees, buffers, frees, mallocs, closes, opens,
      Event.released, Event.buffer, Event.freed, Event.closed, Event.opened]

/-! ## The aligned address -/

theorem land_high_mask (x k : Nat) (hx : x < 2 ^ 64) (hk : k ≤ 64) :
    Nat.land x (2 ^ 64 - 2 ^ k) = x - x % 2 ^ k := by
  have e1 : 2 ^ 64 - 2 ^ k = 2 ^ k * (2 ^ (64 - k) - 1) := by
    rw [Nat.mul_sub, ← Nat.pow_add, Nat.mul_one]
    congr 2
    omega
  have e2 : x - x % 2 ^ k = 2 ^ k * (x / 2 ^ k) := by
    have := Nat.div_add_mod x (2 ^ k)
    omega
  show x &&& (2 ^ 64 - 2 ^ k) = x - x % 2 ^ k
  rw [e1, e2]
  apply Nat.eq_of_testBit_eq
  intro i
  rw [Nat.testBit_and, Nat.testBit_mul_pow_two, Nat.testBit_mul_pow_two,
    Nat.testBit_two_pow_sub_one, ← Nat.shiftRight_eq_div_pow, Nat.testBit_shiftRight]
  by_cases h : k ≤ i
  · have e3 : k + (i - k) = i := by omega
    rw [e3]
    by_cases h2 : i < 64
    · have : i - k < 64 - k := by omega
      simp [h, this]
    · have hlt : x < 2 ^ i := lt_of_lt_of_le hx (Nat.pow_le_pow_right (by decide) (by omega))
      simp [Nat.testBit_lt_two_pow hlt]
  · simp [h]

/-- The mask `~(page_size - 1)` as a `size_t`, for a page size `A` between 1 and `2 ^ 64`. -/
theorem to_size_lnot (A : Nat) (h1 : 1 ≤ A) (h2 : A ≤ 2 ^ 64) :
    to_size (lnot ((A : Int) - 1)) = 2 ^ 64 - A := by
  unfold to_size lnot
  have e : (-((A : Int) - 1) - 1) % (2 : Int) ^ 64 = (((2 ^ 64 - A : Nat)) : Int) := by
    rw [← Int.add_emod_self]
    have : (-((A : Int) - 1) - 1 + (2 : Int) ^ 64) = (((2 ^ 64 - A : Nat)) : Int) := by omega
    rw [this]
    exact Int.emod_eq_of_lt (by omega) (by omega)
  rw [e]
  simp

/-- When the size computation does not wrap and the block of `malloc` ends inside the
address space, the aligned address is a multiple of the page size `2 ^ k`, leaves room
for the saved pointer and is followed by `S` bytes of the block. -/
theorem align_up_in_block (S k p1 : Nat) (hk : k ≤ 62) (hS : S + 2 ^ k + 7 < 2 ^ 64)
    (hp : p1 + (S + 2 ^ k + 7) < 2 ^ 64) :
    alloc_size S ((2 ^ k : Nat) : Int) = S + 2 ^ k + 7 ∧
    align_up p1 ((2 ^ k : Nat) : Int) % 2 ^ k = 0 ∧
    p1 + PTR_SIZE ≤ align_up p1 ((2 ^ k : Nat) : Int) ∧
    align_up p1 ((2 ^ k : Nat) : Int) + S ≤ p1 + alloc_size S ((2 ^ k : Nat) : Int) := by
  have hA : 1 ≤ 2 ^ k := Nat.one_le_two_pow
  have hA2 : 2 ^ k ≤ 2 ^ 64 := Nat.pow_le_pow_right (by decide) (by omega)
  generalize hAe : 2 ^ k = A at *
  have ea : alloc_size S (A : Int) = S + A + 7 := by
    unfold alloc_size PTR_SIZE
    have : ((S : Int) + (A : Int) - 1 + ((8 : Nat) : Int)) = ((S + A + 7 : Nat) : Int) := by omega
    rw [this, to_size_of_lt _ hS]
  have ex : to_size ((p1 : Int) + ((8 : Nat) : Int) + (A : Int) - 1) = p1 + A + 7 := by
    have : ((p1 : Int) + ((8 : Nat) : Int) + (A : Int) - 1) = ((p1 + A + 7 : Nat) : Int) := by
      omega
    rw [this, to_size_of_lt _ (by omega)]
  have eu : align_up p1 (A : Int) = (p1 + A + 7) - (p1 + A + 7) % A := by
    unfold align_up PTR_SIZE
    rw [ex, to_size_lnot A hA hA2, ← hAe]
    exact land_high_mask _ k (by omega) (by omega)
  have hmod : (p1 + A + 7) % A < A := Nat.mod_lt _ (by omega)
  have hle : (p1 + A + 7) % A ≤ p1 + A + 7 := Nat.mod_le _ _
  refine ⟨ea, ?_, ?_, ?_⟩
  · rw [eu]
    exact Nat.sub_mod_eq_zero_of_mod_eq (Nat.mod_mod _ _).symm
  · rw [eu]; unfold PTR_SIZE; omega
  · rw [eu, ea]; omega

/-! ## Further lemmas on the code -/

theorem eintr_once_write_ok : WriteOKFrom eintr_once_write 1 := by
  intro j r hj _
  have : j ≠ 0 := by omega
  simp only [eintr_once_write, if_neg this]
  omega

/-- The loop of `write_all` when the first `write` fails with `EINTR` and the later ones
succeed: `count` is returned. -/
theorem write_all_eintr_then_ok (w : WriteOracle) (buf : List Byte) (i count fuel : Nat)
    (hcount : count ≤ SSIZE_MAX) (h1 : (w i count).ret.val = -1) (h2 : (w i count).errno = EINTR)
    (hw : WriteOKFrom w (i + 1)) (hf : count < fuel) :
    (write_all w buf i count fuel).1 = some (count : Int) := by
  have hlt : count < 2 ^ 64 := by unfold SSIZE_MAX at hcount; omega
  obtain ⟨f, rfl⟩ : ∃ f, fuel = f + 1 := ⟨fuel - 1, by omega⟩
  rw [← to_ssize_of_le count hcount]
  by_cases hpos : 0 < count
  · simp only [write_all, write_all_loop, if_pos hpos, if_pos h1, if_pos h2]
    exact (write_all_loop_ok w buf count f (i + 1) count 0 hw hlt (by omega)).1
  · simp [write_all, write_all_loop, hpos]

theorem one_byte_write_no_eintr : NoEINTR one_byte_write := by
  intro j r h
  simp [one_byte_write] at h

/-- The loop of `gcd` computes the greatest common divisor. -/
theorem gcd_eq (a b : Nat) : gcd a b = Nat.gcd a b := by
  induction b using Nat.strong_induction_on generalizing a with
  | _ b ih =>
    rw [gcd]
    split
    · next h => subst h; simp
    · next h =>
      rw [ih (a % b) (Nat.mod_lt _ (Nat.pos_of_ne_zero h)) b]
      rw [Nat.gcd_comm a b, Nat.gcd_rec b a, Nat.gcd_comm]

/-- For the page size 4096 and a block size in `[512, 1048576]` the product in `lcm` does
not wrap and `lcm` is the least common multiple. -/
theorem lcm_page (b : Nat) (h1 : 512 ≤ b) (h2 : b ≤ 1048576) : lcm 4096 b = Nat.lcm 4096 b := by
  have hg : Nat.gcd 4096 b ∣ 4096 := Nat.gcd_dvd_left _ _
  have e : 4096 / Nat.gcd 4096 b * b = Nat.lcm 4096 b := by
    rw [Nat.lcm, Nat.mul_comm (4096 / _), ← Nat.mul_div_assoc _ hg, Nat.mul_comm]
  have hle : Nat.lcm 4096 b ≤ 4096 * b := by
    apply Nat.le_of_dvd (by omega)
    exact Nat.lcm_dvd (Nat.dvd_mul_right _ _) (Nat.dvd_mul_left _ _)
  unfold lcm
  rw [if_neg (by omega), gcd_eq, e]
  apply Nat.mod_eq_of_lt
  unfold SIZE_MOD
  omega

/-- When `open` succeeds, the `read` calls and the output of `session` are those of the
copy loop, provided the release of the buffer reads and writes nothing. -/
theorem session_reads_output (env : Env) (advise : Bool) (B : Nat) (release : List Event)
    (fuel : Nat) (hfd : env.open_ret ≠ -1) (hr1 : reads release = []) (hr2 : output release = []) :
    reads (session env advise B release fuel).2 =
      reads (copy_loop env.read env.write env.file env.open_ret B fuel 0 0 0 env.garbage).2 ∧
    output (session env advise B release fuel).2 =
      output (copy_loop env.read env.write env.file env.open_ret B fuel 0 0 0 env.garbage).2 := by
  unfold session
  simp only [if_neg hfd]
  generalize copy_loop env.read env.write env.file env.open_ret B fuel 0 0 0 env.garbage = l
  obtain ⟨le, levs⟩ := l
  cases advise <;> by_cases hx : env.fadvise_ret = 0 <;> rcases le with _ | _ | b <;>
    (try by_cases hb : b = -1) <;> (try by_cases hc : env.close_ret = -1) <;>
    simp [hx, hr1, hr2, reads, output, reads_append, output_append, *]

/-- When `open` succeeds and the copy loop ends at the end of the file, `session` exits
with success, or with failure when `close` fails. -/
theorem session_exit_of_eof (env : Env) (advise : Bool) (B : Nat) (release : List Event)
    (fuel : Nat) (hfd : env.open_ret ≠ -1)
    (hl : (copy_loop env.read env.write env.file env.open_ret B fuel 0 0 0 env.garbage).1 =
      some (LoopEnd.ended 0)) :
    (session env advise B release fuel).1 =
      some (if env.close_ret = -1 then EXIT_FAILURE else EXIT_SUCCESS) := by
  unfold session
  simp only [if_neg hfd, hl]
  by_cases hc : env.close_ret = -1 <;> simp [hc]

/-- The run of `main` of mycat5.c on a file of 300000 bytes, when the buffer is allocated,
`open` succeeds, `read` returns all that is available and the writes succeed. -/
theorem main5_300000 (env : Env) (fuel : Nat) (hargc : env.argc = 2)
    (hbuf : (align_alloc5 (env.sysconf 0) env.malloc (fun _ => 0) OPTIMAL_BUFFER_SIZE).1 ≠ 0)
    (hfd : env.open_ret ≠ -1) (hF : env.file.length = 300000)
    (hrd : env.read = full_read env.file) (hw : WriteOK env.write) (hfuel : 300000 < fuel) :
    (main5 env fuel).1 = some (if env.close_ret = -1 then EXIT_FAILURE else EXIT_SUCCESS) ∧
    reads (main5 env fuel).2 = [131072, 131072, 37856, 0] ∧
    output (main5 env fuel).2 = env.file := by
  obtain ⟨l1, l2, l3⟩ := copy_loop_300000 env.write env.file env.open_ret env.garbage hF hw
    fuel hfuel
  rw [← hrd] at l1 l2 l3
  obtain ⟨ps, p1, e1, e2⟩ :=
    align_alloc5_events (env.sysconf 0) env.malloc (fun _ => 0) OPTIMAL_BUFFER_SIZE
  obtain ⟨_, hfree⟩ := e2 hbuf
  have hrel1 : reads (align_free
      (align_alloc5 (env.sysconf 0) env.malloc (fun _ => 0) OPTIMAL_BUFFER_SIZE).2.1
      (align_alloc5 (env.sysconf 0) env.malloc (fun _ => 0) OPTIMAL_BUFFER_SIZE).1) = [] := by
    rw [hfree]; rfl
  have hrel2 : output (align_free
      (align_alloc5 (env.sysconf 0) env.malloc (fun _ => 0) OPTIMAL_BUFFER_SIZE).2.1
      (align_alloc5 (env.sysconf 0) env.malloc (fun _ => 0) OPTIMAL_BUFFER_SIZE).1) = [] := by
    rw [hfree]; rfl
  obtain ⟨s1, s2⟩ := session_reads_output env false OPTIMAL_BUFFER_SIZE _ fuel hfd hrel1 hrel2
  have s3 := session_exit_of_eof env false OPTIMAL_BUFFER_SIZE
    (align_free (align_alloc5 (env.sysconf 0) env.malloc (fun _ => 0) OPTIMAL_BUFFER_SIZE).2.1
      (align_alloc5 (env.sysconf 0) env.malloc (fun _ => 0) OPTIMAL_BUFFER_SIZE).1) fuel hfd l1
  unfold main5
  simp only [ne_eq, hargc, not_true_eq_false, if_false, if_neg hbuf, after]
  refine ⟨s3, ?_, ?_⟩
  · rw [reads_append, s1, l2, e1]
    rfl
  · rw [output_append, s2, l3, e1]
    rfl

/-- In mycat2.c a `write` that fails with `EINTR` ends the run with `EXIT_FAILURE` after
one `read` and one `write`, with nothing copied; in mycat3.c the `write` is tried again
until the fuel runs out. -/
theorem main2_gives_up_on_eintr :
    main2 env_eintr 5 =
      (some EXIT_FAILURE,
        [Event.sysconf 4096, Event.malloc 4096 65536, Event.open_file 3,
          Event.read 3 4096 2, Event.write 0 2 (-1) EINTR [], Event.perror Sys.write_all,
          Event.free 65536, Event.close 3 0]) ∧
    (main3 env_eintr 5).1 = none := by
  decide

/-- An observation that ignores `open`, `close`, `posix_fadvise`, `perror`, `read` and
`write`, and sees nothing in the release of the buffer, sees nothing in `session`. -/
theorem session_quiet {α : Type} (f : Event → Option α)
    (h1 : ∀ ev, ev.is_transfer = true → f ev = none) (h2 : ∀ fd, f (Event.open_file fd) = none)
    (h3 : ∀ fd r, f (Event.close fd r) = none) (h4 : ∀ fd r, f (Event.posix_fadvise fd r) = none)
    (h5 : ∀ s, f (Event.perror s) = none)
    (env : Env) (advise : Bool) (B : Nat) (release : List Event) (fuel : Nat)
    (hrel : release.filterMap f = []) :
    (session env advise B release fuel).2.filterMap f = [] := by
  have hio := filterMap_transfer f h1 _
    (copy_loop_is_transfer env.read env.write env.file env.open_ret B fuel 0 0 0 env.garbage)
  unfold session
  by_cases hfd : env.open_ret = -1
  · simp [hfd, h2, h5, hrel]
  · simp only [if_neg hfd]
    generalize copy_loop env.read env.write env.file env.open_ret B fuel 0 0 0 env.garbage = l
      at hio ⊢
    obtain ⟨le, levs⟩ := l
    have hio1 : List.filterMap f levs = [] := hio
    have hadv : ∀ (b : Bool) (x : Int), List.filterMap f
        (if b = true then Event.posix_fadvise env.open_ret x ::
          (if x ≠ 0 then [Event.perror Sys.posix_fadvise] else []) else []) = [] := by
      intro b x
      cases b <;> by_cases hx : x = 0 <;> simp [hx, h4, h5]
    rcases le with _ | _ | b
    · simp only [List.filterMap_cons, List.filterMap_append, h2, hadv, hio1,
        List.nil_append]
    · simp only [List.filterMap_cons, List.filterMap_append, h2, h3, h5, hadv, hio1, hrel,
        List.nil_append, List.filterMap_nil, List.append_nil]
    · by_cases hb : b = -1
      · simp only [if_pos hb, List.filterMap_cons, List.filterMap_append, h2, h3, h5, hadv,
          hio1, hrel, List.nil_append, List.filterMap_nil, List.append_nil]
      · by_cases hc : env.close_ret = -1
        · simp only [if_neg hb, if_pos hc, List.filterMap_cons, List.filterMap_append, h2, h3,
            h5, hadv, hio1, hrel, List.nil_append, List.filterMap_nil, List.append_nil]
        · simp only [if_neg hb, if_neg hc, List.filterMap_cons, List.filterMap_append, h2, h3,
            h5, hadv, hio1, hrel, List.nil_append, List.filterMap_nil, List.append_nil]

/-- The block size `main` of mycat4.c works with, as a function of the `size_t` value
of `st_blksize`, written out. -/
theorem sanitize_eq (r : Nat) :
    sanitize r = (if 512 ≤ r ∧ r ≤ 1048576 then r else 4096) := by
  unfold sanitize
  by_cases h : r < 512 ∨ r > 1024 * 1024
  · rw [if_pos h, if_neg (by omega)]
  · rw [if_neg h, if_pos (by omega)]

/-- Sanitizing a sanitized block size, read back as a `size_t`, changes nothing. -/
theorem sanitize_idem (r : Nat) : sanitize (to_size ((sanitize r : Nat) : Int)) = sanitize r := by
  have h1 : 512 ≤ sanitize r := by unfold sanitize; split <;> omega
  have h2 : sanitize r ≤ 1048576 := by unfold sanitize; split <;> omega
  rw [to_size_of_lt _ (by omega)]
  generalize sanitize r = s at h1 h2
  unfold sanitize
  rw [if_neg (by omega)]

/-- The part of `main` from `open` on does not look at `st_blksize`. -/
theorem session_blksize (env : Env) (x : Int) (advise : Bool) (B : Nat) (release : List Event)
    (fuel : Nat) :
    session { env with st_blksize := x } advise B release fuel =
      session env advise B release fuel := rfl

/-- The run of `main` of mycat4.c only depends on `st_blksize` through the sanitized
block size. -/
theorem main4_sanitized (env : Env) (fuel : Nat) :
    main4 env fuel =
      main4 { env with st_blksize := ((sanitize (to_size env.st_blksize) : Nat) : Int) } fuel := by
  simp only [main4, sanitize_idem, session_blksize]

/-- The size `main` of mycat4.c asks of `align_alloc`: the capped least common multiple
of the page size and the sanitized block size. -/
theorem main4_alloc_request (env : Env) (fuel : Nat) (hargc : env.argc = 2)
    (hstat : env.stat_ret ≠ -1) :
    alloc_requests (main4 env fuel).2 =
      [buffer_size4 (to_size (page_size_or_default (env.sysconf 0)).1)
        (sanitize (to_size env.st_blksize))] := by
  unfold main4
  simp only [ne_eq, hargc, not_true_eq_false, if_false, if_neg hstat]
  generalize buffer_size4 (to_size (page_size_or_default (env.sysconf 0)).1)
    (sanitize (to_size env.st_blksize)) = B
  have hps : alloc_requests (page_size_or_default (env.sysconf 0)).2 = [] := by
    unfold page_size_or_default
    split <;> rfl
  have ha : alloc_requests (align_alloc3 (env.sysconf 1) env.malloc (fun _ => 0) B).2.2 = [B] := by
    by_cases hsc : env.sysconf 1 = -1
    · simp only [align_alloc3, if_pos hsc]
      rfl
    · by_cases hp : env.malloc (alloc_size B (env.sysconf 1)) = 0
      · simp only [align_alloc3, align_alloc_with, if_neg hsc, if_pos hp]
        rfl
      · simp only [align_alloc3, align_alloc_with, if_neg hsc, if_neg hp]
        rfl
  unfold alloc_requests at hps ha ⊢
  split
  · simp only [List.filterMap_cons, List.filterMap_append, hps, ha]
    rfl
  · have hq := session_quiet Event.requested
      (fun ev hev => by cases ev <;> simp_all [Event.is_transfer, Event.requested])
      (fun _ => rfl) (fun _ _ => rfl) (fun _ _ => rfl) (fun _ => rfl) env false B
      (align_free (align_alloc3 (env.sysconf 1) env.malloc (fun _ => 0) B).2.1
        (align_alloc3 (env.sysconf 1) env.malloc (fun _ => 0) B).1) fuel
      (by unfold align_free; split <;> rfl)
    simp only [after, List.filterMap_cons, List.filterMap_append, hps, ha, hq]
    rfl

/-- The buffer sizes `main` of mycat4.c would get from the block sizes 0, 100 and 2000000
themselves, with the page size 4096, and the one it gets from 4096. -/
theorem buffer_size4_values :
    buffer_size4 4096 0 = 0 ∧ buffer_size4 4096 100 = 102400 ∧
    buffer_size4 4096 2000000 = 131072 ∧ buffer_size4 4096 4096 = 4096 := by
  have e1 : lcm 4096 0 = 0 := by unfold lcm; decide
  have e2 : lcm 4096 100 = 102400 := by
    unfold lcm
    rw [gcd_eq]
    decide
  have e3 : lcm 4096 2000000 = 64000000 := by
    unfold lcm
    rw [gcd_eq]
    decide
  have e4 : lcm 4096 4096 = 4096 := by
    unfold lcm
    rw [gcd_eq]
    decide
  unfold buffer_size4
  rw [e1, e2, e3, e4]
  decide

/-! ## The claims -/

/-! ### C1 -/

/-- Claim C1. Round trip of the copy loop of `main` (mycat6.c): for every file content `F`
and every buffer size `B`, if `read` returns between 1 and `min(B, remaining)` bytes while
bytes remain and 0 at the end of the file, and every `write` transfers between 1 and the
requested number of bytes, then with more fuel than the file has bytes the loop is left
through the end of the file (it terminates) and the bytes written, concatenated in call
order, are exactly `F`. -/
theorem copy_loop_round_trip (rd : ReadOracle) (w : WriteOracle) (F : List Byte) (fd : Int)
    (B fuel : Nat) (buffer : List Byte) (hr : ReadOK rd F B) (hw : WriteOK w)
    (hfuel : F.length < fuel) :
    (copy_loop rd w F fd B fuel 0 0 0 buffer).1 = some (LoopEnd.ended 0) ∧
    output (copy_loop rd w F fd B fuel 0 0 0 buffer).2 = F := by
  have h := copy_loop_from rd w F fd B hr hw fuel 0 0 0 buffer (by omega)
  exact ⟨h.1, by simpa using h.2⟩

/-- The round trip on a file of nine bytes with a buffer of 7 bytes and one byte per `write`. -/
theorem copy_loop_round_trip_witness :
    ReadOK (full_read [1, 2, 3, 4, 5, 6, 7, 8, 9]) [1, 2, 3, 4, 5, 6, 7, 8, 9] 7 ∧
    WriteOK one_byte_write ∧
    (copy_loop (full_read [1, 2, 3, 4, 5, 6, 7, 8, 9]) one_byte_write
      [1, 2, 3, 4, 5, 6, 7, 8, 9] 3 7 10 0 0 0 []).1 = some (LoopEnd.ended 0) ∧
    output (copy_loop (full_read [1, 2, 3, 4, 5, 6, 7, 8, 9]) one_byte_write
      [1, 2, 3, 4, 5, 6, 7, 8, 9] 3 7 10 0 0 0 []).2 = [1, 2, 3, 4, 5, 6, 7, 8, 9] :=
  ⟨full_read_ok _ 7 (by decide), one_byte_write_ok,
    copy_loop_round_trip (full_read [1, 2, 3, 4, 5, 6, 7, 8, 9]) one_byte_write
      [1, 2, 3, 4, 5, 6, 7, 8, 9] 3 7 10 [] (full_read_ok _ 7 (by decide)) one_byte_write_ok
      (by decide)⟩

/-! ### C2 -/

/-- Claim C2. Total correctness of `write_all` (mycat3.c) under partial writes, for
`count <= SSIZE_MAX` and a buffer of at least `count` bytes.  If every `write` transfers
between 1 and the requested number of bytes, then with fuel for `count` calls `write_all`
returns `count` after at most `count` calls, and the bytes transferred are `buf[0..count)`
in order, `count` bytes in all; with one byte per call it makes exactly `count` calls; with
`count = 0` it makes no call at all; and with any `write` that fails or transfers between 0
and the requested number of bytes, a returned value other than `-1` is `count` and comes
with exactly the bytes `buf[0..count)` transferred. -/
theorem write_all_total (w : WriteOracle) (buf : List Byte) (i count : Nat)
    (hcount : count ≤ SSIZE_MAX) (hbuf : count ≤ buf.length) :
    (WriteOK w → ∀ fuel, count ≤ fuel →
      (write_all w buf i count fuel).1 = some (count : Int) ∧
      (write_all w buf i count fuel).2.length ≤ count ∧
      output (write_all w buf i count fuel).2 = buf.take count ∧
      (output (write_all w buf i count fuel).2).length = count) ∧
    (WriteOneByte w → ∀ fuel, count ≤ fuel → (write_all w buf i count fuel).2.length = count) ∧
    (count = 0 → ∀ fuel, write_all w buf i count fuel = (some 0, [])) ∧
    (WriteConforming w → ∀ fuel v, (write_all w buf i count fuel).1 = some v → v ≠ -1 →
      v = (count : Int) ∧ output (write_all w buf i count fuel).2 = buf.take count ∧
      (output (write_all w buf i count fuel).2).length = count) := by
  have hlt : count < 2 ^ 64 := by unfold SSIZE_MAX at hcount; omega
  have hs := to_ssize_of_le count hcount
  refine ⟨?_, ?_, ?_, ?_⟩
  · intro hw fuel hf
    obtain ⟨r1, r2, _, r4⟩ := write_all_loop_ok w buf count fuel i count 0
      (fun j r _ hr => hw j r (Nat.zero_le _) hr) hlt hf
    have r4' : output (write_all w buf i count fuel).2 = buf.take count := by
      simpa using r4
    refine ⟨by rw [← hs]; exact r1, r2, r4', ?_⟩
    rw [r4', List.length_take]
    omega
  · intro hw fuel hf
    exact write_all_loop_one_byte w buf count fuel i count 0 hw hlt hf
  · intro h0 fuel
    subst h0
    cases fuel <;> simp [write_all, write_all_loop, to_ssize]
  · intro hw fuel v h1 h2
    obtain ⟨r1, r2⟩ := write_all_loop_success w buf count hw fuel i count 0 v hlt h1 h2
    have r2' : output (write_all w buf i count fuel).2 = buf.take count := by
      simpa using r2
    refine ⟨by rw [r1, hs], r2', ?_⟩
    rw [r2', List.length_take]
    omega

/-- Three bytes written one byte per call. -/
theorem write_all_total_witness :
    3 ≤ SSIZE_MAX ∧ 3 ≤ [104, 105, 10].length ∧ WriteOK one_byte_write ∧
    (write_all one_byte_write [104, 105, 10] 0 3 3).1 = some 3 ∧
    (write_all one_byte_write [104, 105, 10] 0 3 3).2.length ≤ 3 ∧
    output (write_all one_byte_write [104, 105, 10] 0 3 3).2 = [104, 105, 10] ∧
    (output (write_all one_byte_write [104, 105, 10] 0 3 3).2).length = 3 :=
  ⟨by decide, by decide, one_byte_write_ok,
    (write_all_total one_byte_write [104, 105, 10] 0 3 (by decide) (by decide)).1
      one_byte_write_ok 3 (by decide)⟩

/-! ### C3 -/

/-- Counterexample to claim C3 as stated: with `count = SIZE_MAX` and three `write` calls
that all succeed (transferring `2^63 - 1`, `2^63 - 1` and `1` bytes), `write_all` returns
`-1`, the value of `count` as an `ssize_t`, although no `write` call failed.  The value
returned does not depend on the bytes of the buffer, which is left empty here. -/
theorem write_all_fails_without_failure :
    (write_all full_write [] 0 (2 ^ 64 - 1) 3).1 = some (-1) ∧
    (write_all full_write [] 0 (2 ^ 64 - 1) 3).2.length = 3 ∧
    ¬ ∃ ev ∈ (write_all full_write [] 0 (2 ^ 64 - 1) 3).2, ev.failed_fatal = true := by
  decide

/-- Claim C3, amended. Failure condition of `write_all` (mycat3.c .. mycat6.c) for
`count <= SSIZE_MAX`, for every `write` and every amount of fuel: a call that fails with
`EINTR` is followed (fuel permitting) by a call with the same cursor and the same byte
count; `write_all` returns `-1` exactly when one of its calls failed with an error other
than `EINTR`; such a call is the last one; every call is made with bytes still to
transfer; and when the first `write` fails with `EINTR` and the later ones succeed,
`write_all` returns `count`. -/
theorem write_all_failure (w : WriteOracle) (buf : List Byte) (i count fuel : Nat)
    (hcount : count ≤ SSIZE_MAX) :
    (∀ j ev, (write_all w buf i count fuel).2[j]? = some ev → ev.failed_eintr = true →
      j + 1 < fuel →
      ∃ ev1, (write_all w buf i count fuel).2[j + 1]? = some ev1 ∧ ev1.request = ev.request) ∧
    ((write_all w buf i count fuel).1 = some (-1) ↔
      ∃ ev ∈ (write_all w buf i count fuel).2, ev.failed_fatal = true) ∧
    (∀ j ev, (write_all w buf i count fuel).2[j]? = some ev → ev.failed_fatal = true →
      (write_all w buf i count fuel).2.length = j + 1) ∧
    (∀ ev ∈ (write_all w buf i count fuel).2, ev.is_write = true) ∧
    ((w i count).ret.val = -1 → (w i count).errno = EINTR → WriteOKFrom w (i + 1) →
      count < fuel → (write_all w buf i count fuel).1 = some (count : Int)) := by
  have hne : to_ssize count ≠ -1 := by
    rw [to_ssize_of_le count hcount]
    omega
  exact ⟨write_all_loop_retry w buf count fuel i count 0,
    write_all_loop_fails_iff w buf count hne fuel i count 0,
    write_all_loop_fatal_last w buf count fuel i count 0,
    write_all_loop_is_write w buf count fuel i count 0,
    fun h1 h2 hw hf => write_all_eintr_then_ok w buf i count fuel hcount h1 h2 hw hf⟩

/-- Two bytes written when the first `write` fails with `EINTR`: `write_all` returns 2. -/
theorem write_all_failure_witness :
    2 ≤ SSIZE_MAX ∧ (write_all eintr_once_write [104, 105] 0 2 3).1 = some 2 :=
  ⟨by decide,
    (write_all_failure eintr_once_write [104, 105] 0 2 3 (by decide)).2.2.2.2
      (by decide) (by decide) eintr_once_write_ok (by decide)⟩

/-! ### C4 -/

/-- Counterexample to claim C4 as stated: for the requested size `S = SIZE_MAX`, the page
size 4096 and `malloc` returning the address `0x10000`, the request to `malloc` wraps to
4102 bytes, `align_alloc` returns `0x11000`, and the `S` bytes from there do not fit in the
4102 bytes of the block. -/
theorem align_alloc_size_wraps :
    (align_alloc5 4096 (fun _ => 65536) (fun _ => 0) (2 ^ 64 - 1)).2.2 =
      [Event.sysconf 4096, Event.malloc 4102 65536, Event.align_alloc (2 ^ 64 - 1) 69632] ∧
    (align_alloc5 4096 (fun _ => 65536) (fun _ => 0) (2 ^ 64 - 1)).1 = 69632 ∧
    ¬ ((align_alloc5 4096 (fun _ => 65536) (fun _ => 0) (2 ^ 64 - 1)).1 + (2 ^ 64 - 1) ≤
      65536 + alloc_size (2 ^ 64 - 1) 4096) := by
  decide

/-- Claim C4, amended. Alignment property of `align_alloc` (mycat5.c, mycat6.c) when the
size computation does not wrap: for every size `S` and page size `A = 2 ^ k` with
`S + A - 1 + sizeof(void *) <= SIZE_MAX` (the page size being what `sysconf` returned, or
4096 when it failed), and every block `p1` of `malloc`, not `NULL` and ending inside the
address space, for the request of `S + A - 1 + sizeof(void *)` bytes, the returned address
`p2` is a multiple of `A`, satisfies `p2 >= p1 + sizeof(void *)` and
`p2 + S <= p1 + (allocated size)`, and the slot just before `p2` holds `p1`. -/
theorem align_alloc_aligned (sc : Int) (malloc : Nat → Nat) (mem : Mem) (S k : Nat)
    (hk : k ≤ 62) (hsc : (if sc = -1 then 4096 else sc) = ((2 ^ k : Nat) : Int))
    (hS : S + 2 ^ k - 1 + PTR_SIZE < 2 ^ 64)
    (hp1 : malloc (alloc_size S ((2 ^ k : Nat) : Int)) ≠ 0)
    (hend : malloc (alloc_size S ((2 ^ k : Nat) : Int)) + alloc_size S ((2 ^ k : Nat) : Int)
      < 2 ^ 64) :
    alloc_size S ((2 ^ k : Nat) : Int) = S + 2 ^ k - 1 + PTR_SIZE ∧
    (align_alloc5 sc malloc mem S).1 % 2 ^ k = 0 ∧
    malloc (alloc_size S ((2 ^ k : Nat) : Int)) + PTR_SIZE ≤ (align_alloc5 sc malloc mem S).1 ∧
    (align_alloc5 sc malloc mem S).1 + S ≤
      malloc (alloc_size S ((2 ^ k : Nat) : Int)) + alloc_size S ((2 ^ k : Nat) : Int) ∧
    (align_alloc5 sc malloc mem S).2.1
      (to_size (((align_alloc5 sc malloc mem S).1 : Int) - (PTR_SIZE : Int))) =
        malloc (alloc_size S ((2 ^ k : Nat) : Int)) := by
  have hA : 1 ≤ 2 ^ k := Nat.one_le_two_pow
  have hS' : S + 2 ^ k + 7 < 2 ^ 64 := by unfold PTR_SIZE at hS; omega
  have ea : alloc_size S ((2 ^ k : Nat) : Int) = S + 2 ^ k + 7 :=
    (align_up_in_block S k 0 hk hS' (by omega)).1
  have hend1 : malloc (alloc_size S ((2 ^ k : Nat) : Int)) + (S + 2 ^ k + 7) < 2 ^ 64 := by
    generalize malloc (alloc_size S ((2 ^ k : Nat) : Int)) = p1 at hend
    rw [ea] at hend
    exact hend
  obtain ⟨_, b2, b3, b4⟩ := align_up_in_block S k (malloc (alloc_size S ((2 ^ k : Nat) : Int)))
    hk hS' hend1
  have e : align_alloc5 sc malloc mem S =
      (align_up (malloc (alloc_size S ((2 ^ k : Nat) : Int))) ((2 ^ k : Nat) : Int),
        Function.update mem (to_size ((align_up (malloc (alloc_size S ((2 ^ k : Nat) : Int)))
          ((2 ^ k : Nat) : Int) : Int) - (PTR_SIZE : Int)))
          (malloc (alloc_size S ((2 ^ k : Nat) : Int))),
        [Event.sysconf sc,
          Event.malloc (alloc_size S ((2 ^ k : Nat) : Int))
            (malloc (alloc_size S ((2 ^ k : Nat) : Int))),
          Event.align_alloc S (align_up (malloc (alloc_size S ((2 ^ k : Nat) : Int)))
            ((2 ^ k : Nat) : Int))]) := by
    simp only [align_alloc5, align_alloc_with, hsc, if_neg hp1]
  rw [e]
  refine ⟨?_, b2, b3, b4, ?_⟩
  · rw [ea]; unfold PTR_SIZE; omega
  · simp only [Function.update_same]

/-- The buffer of 128 KiB aligned to the fallback page size 4096 in a block at `0x10000`. -/
theorem align_alloc_aligned_witness :
    (align_alloc5 (-1) (fun _ => 65536) (fun _ => 0) 131072).1 % 2 ^ 12 = 0 ∧
    65536 + PTR_SIZE ≤ (align_alloc5 (-1) (fun _ => 65536) (fun _ => 0) 131072).1 ∧
    (align_alloc5 (-1) (fun _ => 65536) (fun _ => 0) 131072).1 + 131072 ≤
      65536 + alloc_size 131072 ((2 ^ 12 : Nat) : Int) :=
  have h := align_alloc_aligned (-1) (fun _ => 65536) (fun _ => 0) 131072 12
    (by decide) (by decide) (by decide) (by decide) (by decide)
  ⟨h.2.1, h.2.2.1, h.2.2.2.1⟩

/-! ### C5 -/

/-- Counterexample to claim C5 as stated: for the block size 513 the least common multiple
with 4096 is 2101248, the buffer size is the cap 131072, and 131072 is not a multiple
of 513. -/
theorem buffer_size4_not_multiple :
    512 ≤ 513 ∧ 513 ≤ 1048576 ∧ lcm 4096 513 = 2101248 ∧ buffer_size4 4096 513 = 131072 ∧
    ¬ (513 ∣ buffer_size4 4096 513) := by
  have e : lcm 4096 513 = 2101248 := by
    rw [lcm_page 513 (by decide) (by decide)]
    decide
  have e2 : buffer_size4 4096 513 = 131072 := by
    unfold buffer_size4
    rw [e]
    decide
  refine ⟨by decide, by decide, e, e2, ?_⟩
  rw [e2]
  decide

/-- Claim C5, amended. Buffer size of mycat4.c for the page size 4096 and a sanitized block
size `b` with `512 <= b <= 1048576`: the size is positive, a multiple of 4096 and at most
131072; it is the least common multiple of 4096 and `b`, hence a multiple of `b`, when that
is at most 131072, and the cap 131072 itself otherwise. -/
theorem buffer_size4_bound (b : Nat) (h1 : 512 ≤ b) (h2 : b ≤ 1048576) :
    0 < buffer_size4 4096 b ∧ 4096 ∣ buffer_size4 4096 b ∧ buffer_size4 4096 b ≤ 131072 ∧
    lcm 4096 b = Nat.lcm 4096 b ∧
    (lcm 4096 b ≤ 131072 → buffer_size4 4096 b = lcm 4096 b ∧ b ∣ buffer_size4 4096 b) ∧
    (131072 < lcm 4096 b → buffer_size4 4096 b = 131072) := by
  have e := lcm_page b h1 h2
  have hpos : 0 < Nat.lcm 4096 b := Nat.lcm_pos (by decide) (by omega)
  have hd1 : 4096 ∣ Nat.lcm 4096 b := Nat.dvd_lcm_left _ _
  have hd2 : b ∣ Nat.lcm 4096 b := Nat.dvd_lcm_right _ _
  have hb : buffer_size4 4096 b =
      if Nat.lcm 4096 b > 131072 then 131072 else Nat.lcm 4096 b := by
    unfold buffer_size4
    rw [e]
  rw [hb, e]
  by_cases hc : Nat.lcm 4096 b > 131072
  · rw [if_pos hc]
    exact ⟨by decide, by decide, by decide, rfl, fun h => by omega, fun _ => rfl⟩
  · rw [if_neg hc]
    exact ⟨hpos, hd1, by omega, rfl, fun _ => ⟨rfl, hd2⟩, fun h => by omega⟩

/-- The buffer size for the block size 1536. -/
theorem buffer_size4_bound_witness :
    512 ≤ 1536 ∧ 1536 ≤ 1048576 ∧
    0 < buffer_size4 4096 1536 ∧ 4096 ∣ buffer_size4 4096 1536 ∧
    buffer_size4 4096 1536 ≤ 131072 :=
  have h := buffer_size4_bound 1536 (by decide) (by decide)
  ⟨by decide, by decide, h.1, h.2.1, h.2.2.1⟩

/-! ### C6 -/

/-- Claim C6. Metadata sanitization of mycat4.c.  The sanity check maps a block size `r`
to `r` when `512 <= r <= 1048576` and to 4096 otherwise, so 0, 100 and 2000000 become 4096
and the result lies in `[512, 1048576]`.  In `main`, for every environment: the run is the
run with `st_blksize`, read as a `size_t`, replaced by that sanitized value; when `stat`
succeeds, the size asked of `align_alloc` is the capped least common multiple of the page
size and the sanitized value, so the replacement happens before the LCM is computed.  With
the page size 4096, a reported block size of 0, 100, 2000000 or -1 gives the run of the
block size 4096, with a buffer of 4096 bytes. -/
theorem main4_sanitizes (r : Nat) (env : Env) (fuel : Nat) :
    sanitize r = (if 512 ≤ r ∧ r ≤ 1048576 then r else 4096) ∧
    sanitize 0 = 4096 ∧ sanitize 100 = 4096 ∧ sanitize 2000000 = 4096 ∧
    512 ≤ sanitize r ∧ sanitize r ≤ 1048576 ∧
    main4 env fuel =
      main4 { env with st_blksize :=
        ((if 512 ≤ to_size env.st_blksize ∧ to_size env.st_blksize ≤ 1048576
          then to_size env.st_blksize else 4096 : Nat) : Int) } fuel ∧
    (env.argc = 2 → env.stat_ret ≠ -1 →
      alloc_requests (main4 env fuel).2 =
        [buffer_size4 (to_size (page_size_or_default (env.sysconf 0)).1)
          (if 512 ≤ to_size env.st_blksize ∧ to_size env.st_blksize ≤ 1048576
            then to_size env.st_blksize else 4096)]) ∧
    main4 (env_blksize 0) fuel = main4 (env_blksize 4096) fuel ∧
    main4 (env_blksize 100) fuel = main4 (env_blksize 4096) fuel ∧
    main4 (env_blksize 2000000) fuel = main4 (env_blksize 4096) fuel ∧
    main4 (env_blksize (-1)) fuel = main4 (env_blksize 4096) fuel ∧
    alloc_requests (main4 (env_blksize 0) fuel).2 = [4096] ∧
    alloc_requests (main4 (env_blksize 100) fuel).2 = [4096] ∧
    alloc_requests (main4 (env_blksize 2000000) fuel).2 = [4096] := by
  have hrange : 512 ≤ sanitize r ∧ sanitize r ≤ 1048576 := by
    unfold sanitize
    constructor <;> split <;> omega
  have e : ∀ b : Int, sanitize (to_size b) = 4096 →
      main4 (env_blksize b) fuel = main4 (env_blksize 4096) fuel := by
    intro b hb
    rw [main4_sanitized (env_blksize b) fuel]
    show main4 { env_blksize b with st_blksize := ((sanitize (to_size b) : Nat) : Int) } fuel = _
    rw [hb]
    rfl
  have e0 := e 0 (by decide)
  have e100 := e 100 (by decide)
  have e2m := e 2000000 (by decide)
  have eneg := e (-1) (by decide)
  have a4096 : alloc_requests (main4 (env_blksize 4096) fuel).2 = [4096] := by
    rw [main4_alloc_request (env_blksize 4096) fuel rfl (by decide)]
    show [buffer_size4 (to_size 4096) (sanitize (to_size 4096))] = [4096]
    have h1 : to_size 4096 = 4096 := by decide
    have h2 : sanitize 4096 = 4096 := by decide
    rw [h1, h2, buffer_size4_values.2.2.2]
  refine ⟨sanitize_eq r, by decide, by decide, by decide, hrange.1, hrange.2, ?_, ?_,
    e0, e100, e2m, eneg, ?_, ?_, ?_⟩
  · rw [← sanitize_eq]
    exact main4_sanitized env fuel
  · intro hargc hstat
    rw [← sanitize_eq]
    exact main4_alloc_request env fuel hargc hstat
  · rw [e0]; exact a4096
  · rw [e100]; exact a4096
  · rw [e2m]; exact a4096

/-- The size asked of `align_alloc` when `stat` reports a block size of 2000000 and the
page size is 4096. -/
theorem main4_sanitizes_witness :
    (env_blksize 2000000).argc = 2 ∧ (env_blksize 2000000).stat_ret ≠ -1 ∧
    alloc_requests (main4 (env_blksize 2000000) 5).2 = [buffer_size4 4096 4096] :=
  ⟨rfl, by decide,
    (main4_sanitizes 2000000 (env_blksize 2000000) 5).2.2.2.2.2.2.2.1 rfl (by decide)⟩

/-! ### C7 -/

/-- Claim C7. Resource release on every path of `main` (mycat6.c): in every run that
exits, whatever `sysconf`, `malloc`, `open`, `posix_fadvise`, `read`, `write` and `close`
do, `align_free` is called exactly once on the buffer `align_alloc` returned (and never
when it returned `NULL`), each such call frees one block, a block `malloc` returned, and
`close` is called exactly once on the descriptor `open` returned (and never when `open`
failed). -/
theorem main6_releases_once (env : Env) (fuel : Nat) (code : Int)
    (h : (main6 env fuel).1 = some code) :
    align_frees (main6 env fuel).2 = buffers (main6 env fuel).2 ∧
    (buffers (main6 env fuel).2).length ≤ 1 ∧
    (frees (main6 env fuel).2).length = (buffers (main6 env fuel).2).length ∧
    (∀ p ∈ frees (main6 env fuel).2, p ∈ mallocs (main6 env fuel).2) ∧
    closes (main6 env fuel).2 = opens (main6 env fuel).2 ∧
    (opens (main6 env fuel).2).length ≤ 1 :=
  main6_released env fuel code h

/-- The release discipline on a run of mycat6.c that copies a file of two bytes. -/
theorem main6_releases_once_witness :
    (main6 env_no_page_size 5).1 = some 0 ∧
    align_frees (main6 env_no_page_size 5).2 = buffers (main6 env_no_page_size 5).2 ∧
    (frees (main6 env_no_page_size 5).2).length = (buffers (main6 env_no_page_size 5).2).length ∧
    closes (main6 env_no_page_size 5).2 = opens (main6 env_no_page_size 5).2 :=
  have h := main6_releases_once env_no_page_size 5 0 (by decide)
  ⟨by decide, h.1, h.2.2.1, h.2.2.2.2.1⟩

/-! ### C8 -/

/-- Claim C8, the code at the failing input: when `sysconf(_SC_PAGESIZE)` returns `-1` at
every call and every other call succeeds, `main` of mycat3.c and of mycat4.c exit with
`EXIT_FAILURE` without calling `malloc`, `open`, `read` or `write` (the page-size query
inside `align_alloc` makes it return `NULL`), whereas `main` of mycat2.c, mycat5.c and
mycat6.c copy the file and exit with `EXIT_SUCCESS`. -/
theorem page_size_failure_is_fatal :
    (∀ fuel, main3 env_no_page_size fuel =
      (some EXIT_FAILURE,
        [Event.sysconf (-1), Event.perror Sys.sysconf, Event.sysconf (-1),
          Event.perror Sys.sysconf, Event.align_alloc 4096 0, Event.perror Sys.align_alloc])) ∧
    (∀ fuel, main4 env_no_page_size fuel =
      (some EXIT_FAILURE,
        [Event.stat 0, Event.sysconf (-1), Event.perror Sys.sysconf, Event.sysconf (-1),
          Event.perror Sys.sysconf, Event.align_alloc 4096 0, Event.perror Sys.align_alloc])) ∧
    (main2 env_no_page_size 5).1 = some EXIT_SUCCESS ∧
    output (main2 env_no_page_size 5).2 = [104, 105] ∧
    (main5 env_no_page_size 5).1 = some EXIT_SUCCESS ∧
    output (main5 env_no_page_size 5).2 = [104, 105] ∧
    (main6 env_no_page_size 5).1 = some EXIT_SUCCESS ∧
    output (main6 env_no_page_size 5).2 = [104, 105] := by
  have hb : buffer_size4 4096 4096 = 4096 := by
    unfold buffer_size4
    rw [lcm_page 4096 (by decide) (by decide)]
    decide
  have h1 : to_size 4096 = 4096 := by decide
  have h2 : sanitize 4096 = 4096 := by decide
  refine ⟨fun _ => rfl, ?_, by decide, by decide, by decide, by decide, by decide, by decide⟩
  intro fuel
  simp [main4, env_no_page_size, sysconf_fails, page_size_or_default, align_alloc3, h1, h2, hb]

/-! ### C9 -/

/-- Counterexample to claim C9 as stated: on a file of 300000 bytes `main` of mycat5.c
makes four `read` calls, not three: the fourth returns 0 and ends the loop. -/
theorem main5_300000_four_reads :
    reads (main5 env_300000 300001).2 ≠ [131072, 131072, 37856] ∧
    (reads (main5 env_300000 300001).2).length = 4 := by
  have h := (main5_300000 env_300000 300001 rfl (by decide) (by decide)
    (List.length_replicate _ _) rfl full_write_ok (by decide)).2.1
  rw [h]
  exact ⟨by decide, by decide⟩

/-- Claim C9, amended. End-to-end scenario of mycat5.c (buffer of 131072 bytes): on a file
of 300000 bytes, when the buffer is allocated and `open` succeeds, with `read` returning as
many bytes as are available up to the size of the buffer and every `write` transferring
between 1 and the requested number of bytes, `main` makes exactly 4 `read` calls, which
return 131072, 131072, 37856 and 0 bytes, the concatenated output is the file, and the
process exits (with success unless `close` fails). -/
theorem main5_300000_scenario (env : Env) (fuel : Nat) (hargc : env.argc = 2)
    (hbuf : (align_alloc5 (env.sysconf 0) env.malloc (fun _ => 0) OPTIMAL_BUFFER_SIZE).1 ≠ 0)
    (hfd : env.open_ret ≠ -1) (hF : env.file.length = 300000)
    (hrd : env.read = full_read env.file) (hw : WriteOK env.write) (hfuel : 300000 < fuel) :
    (main5 env fuel).1 = some (if env.close_ret = -1 then EXIT_FAILURE else EXIT_SUCCESS) ∧
    reads (main5 env fuel).2 = [131072, 131072, 37856, 0] ∧
    output (main5 env fuel).2 = env.file :=
  main5_300000 env fuel hargc hbuf hfd hF hrd hw hfuel

/-- The scenario on a file of 300000 equal bytes. -/
theorem main5_300000_scenario_witness :
    env_300000.file.length = 300000 ∧ WriteOK env_300000.write ∧
    (main5 env_300000 300001).1 = some EXIT_SUCCESS ∧
    reads (main5 env_300000 300001).2 = [131072, 131072, 37856, 0] ∧
    output (main5 env_300000 300001).2 = List.replicate 300000 7 :=
  have h := main5_300000_scenario env_300000 300001 rfl (by decide) (by decide)
    (List.length_replicate _ _) rfl full_write_ok (by decide)
  ⟨List.length_replicate _ _, full_write_ok, h.1, h.2.1, h.2.2⟩

/-! ### C10 -/

/-- Counterexample to claim C10 as stated: when the first `write` fails with `EINTR`,
`write_all` of mycat2.c returns `-1` after that one call whereas `write_all` of mycat3.c
calls `write` again and returns `count`. -/
theorem write_all2_differs :
    write_all2 eintr_once_write [104] 0 1 2 ≠ write_all eintr_once_write [104] 0 1 2 ∧
    (write_all2 eintr_once_write [104] 0 1 2).1 = some (-1) ∧
    (write_all2 eintr_once_write [104] 0 1 2).2.length = 1 ∧
    (write_all eintr_once_write [104] 0 1 2).1 = some 1 ∧
    (write_all eintr_once_write [104] 0 1 2).2.length = 2 := by
  decide

/-- Claim C10, amended. For every buffer, every count and every `write` none of whose
calls fails with `EINTR`, `write_all` of mycat2.c and `write_all` of mycat3.c make the same
sequence of `write` calls and return the same result (for every amount of fuel). -/
theorem write_all2_eq_write_all (w : WriteOracle) (buf : List Byte) (i count fuel : Nat)
    (hw : NoEINTR w) :
    write_all2 w buf i count fuel = write_all w buf i count fuel :=
  write_all2_loop_eq w buf count hw fuel i count 0

/-- Both versions of `write_all` agree on two bytes written one byte per call. -/
theorem write_all2_eq_write_all_witness :
    NoEINTR one_byte_write ∧
    write_all2 one_byte_write [104, 105] 0 2 2 = write_all one_byte_write [104, 105] 0 2 2 :=
  ⟨one_byte_write_no_eintr,
    write_all2_eq_write_all one_byte_write [104, 105] 0 2 2 one_byte_write_no_eintr⟩

end Mycat
